import Mathlib

/-!
Verification of the NSSA NetLens PCAP analyzer (`pcap_analyzer`), a shallow
embedding of `link_tracer.py` and `analyzer.py` in Lean 4.

Python machine types are modelled as follows: `int` as `Int` (or `Nat` where
the source only ever increments from 0), `float` as `ℚ` (tshark timestamps and
the confidence arithmetic of the tracer use values far from the binade edges
where a binary64 model could disagree on the comparisons performed), `str` as
`String` with lexicographic ordering on code points, `dict` as insertion-ordered
association lists, and exceptions as `Option`/explicit abort flags.  Library
primitives that no claim depends on (MD5 hashing, UTF-8 decoding composed with
the header regular expression) are threaded as oracle function parameters.
-/

namespace NetLens

variable {κ : Type} [DecidableEq κ]

/-- Insertion-ordered association-list lookup (Python `dict` read). -/
def alookup {α : Type} (k : κ) : List (κ × α) → Option α
  | [] => none
  | (k', v) :: tl => if k' = k then some v else alookup k tl

/-- Insertion-ordered association-list write: replace in place when the key is
present, else append (Python `dict` assignment). -/
def aset {α : Type} (k : κ) (v : α) : List (κ × α) → List (κ × α)
  | [] => [(k, v)]
  | (k', v') :: tl => if k' = k then (k, v) :: tl else (k', v') :: aset k v tl

/-- Append `v` to the list stored under `k`, creating a singleton entry when the
key is new (Python `defaultdict(list)[k].append(v)`). -/
def apush {α : Type} (k : κ) (v : α) : List (κ × List α) → List (κ × List α)
  | [] => [(k, [v])]
  | (k', vs) :: tl => if k' = k then (k, vs ++ [v]) :: tl else (k', vs) :: apush k v tl

/-- Add 1 to the counter stored under `k` (Python `defaultdict(int)[k] += 1`). -/
def abump (k : κ) : List (κ × Nat) → List (κ × Nat)
  | [] => [(k, 1)]
  | (k', n) :: tl => if k' = k then (k, n + 1) :: tl else (k', n) :: abump k tl

/-- Decimal digit value. -/
def digitVal (c : Char) : Option Nat :=
  if '0' ≤ c ∧ c ≤ '9' then some (c.toNat - '0'.toNat) else none

/-- Accumulate decimal digits; `none` when a non-digit occurs or the list is empty. -/
def digitsVal : List Char → Option Nat
  | [] => none
  | [c] => digitVal c
  | c :: tl => match digitVal c, digitsVal tl with
    | some d, some r => some (d * 10 ^ tl.length + r)
    | _, _ => none

/-- Model of Python `int(s)` (base 10) on an optionally signed digit string.
Python additionally tolerates surrounding whitespace and interior underscores;
those inputs are modelled as unparseable, which no claim exercises. -/
def pyParseInt (s : String) : Option Int :=
  match s.data with
  | '-' :: tl => (digitsVal tl).map (fun n => -(n : Int))
  | '+' :: tl => (digitsVal tl).map (fun n => (n : Int))
  | l => (digitsVal l).map (fun n => (n : Int))

/-- Hexadecimal digit value. -/
def hexVal (c : Char) : Option Nat :=
  if '0' ≤ c ∧ c ≤ '9' then some (c.toNat - '0'.toNat)
  else if 'a' ≤ c ∧ c ≤ 'f' then some (c.toNat - 'a'.toNat + 10)
  else if 'A' ≤ c ∧ c ≤ 'F' then some (c.toNat - 'A'.toNat + 10)
  else none

/-- Accumulate hexadecimal digits; `none` on a non-hex-digit or empty input. -/
def hexDigitsVal : List Char → Option Nat
  | [] => none
  | [c] => hexVal c
  | c :: tl => match hexVal c, hexDigitsVal tl with
    | some d, some r => some (d * 16 ^ tl.length + r)
    | _, _ => none

/-- Model of Python `int(s, 16)` restricted to the `0x`-prefixed, unsigned form
(the only form reaching that call in `_parse_tcp_flags`). -/
def pyParseHex (s : String) : Option Int :=
  match s.data with
  | '0' :: 'x' :: tl => (hexDigitsVal tl).map (fun n => (n : Int))
  | _ => none

/-- Model of Python `float(s)`: optional sign, then decimal digits with an
optional fractional part (at least one digit overall).  Exponent, `inf`/`nan`
and whitespace forms are modelled as unparseable; no claim exercises them. -/
def parseFrac : List Char → Option ℚ
  | [] => some 0
  | c :: tl => match digitVal c, parseFrac tl with
    | some d, some r => some ((d + r) / 10)
    | _, _ => none

/-- Unsigned decimal form `digits [. digits]` / `.digits` / `digits.`. -/
def parseUnsignedFloat (l : List Char) : Option ℚ :=
  match l.splitOn '.' with
  | [ip] => (digitsVal ip).map (fun n => (n : ℚ))
  | [[], fp] => if fp = [] then none else (parseFrac fp).map (fun f => f)
  | [ip, fp] =>
      match digitsVal ip, parseFrac fp with
      | some n, some f => some ((n : ℚ) + f)
      | _, _ => none
  | _ => none

def pyParseFloat (s : String) : Option ℚ :=
  match s.data with
  | '-' :: tl => (parseUnsignedFloat tl).map (fun q => -q)
  | '+' :: tl => parseUnsignedFloat tl
  | l => parseUnsignedFloat l

/-- Python `s.replace(":", "")` on character data. -/
def removeColons (l : List Char) : List Char := l.filter (fun c => c ≠ ':')

/-- Model of Python `bytes.fromhex` on a separator-free string: pairs of hex
digits.  (Python also allows blanks at pair boundaries; not exercised.) -/
def hexPairs : List Char → Option (List Nat)
  | [] => some []
  | [_] => none
  | c1 :: c2 :: tl => match hexVal c1, hexVal c2, hexPairs tl with
    | some h, some lo, some r => some ((h * 16 + lo) :: r)
    | _, _, _ => none

/-- Python string comparison `a < b`: lexicographic on code points. -/
def lexLt : List Char → List Char → Bool
  | _, [] => false
  | [], _ :: _ => true
  | a :: as', b :: bs' => if a < b then true else if b < a then false else lexLt as' bs'

def strLt (a b : String) : Bool := lexLt a.data b.data

/-- Python `sorted([x, y])` for two strings, returned as an ascending pair. -/
def pairSorted (x y : String) : String × String :=
  if strLt y x then (y, x) else (x, y)

/-- `SessionInfo` dataclass of `link_tracer.py` (times as ℚ, `dict` headers as
an insertion-ordered association list). -/
structure SessionInfo where
  session_id : String := ""
  src_ip : String := ""
  src_port : Int := 0
  dst_ip : String := ""
  dst_port : Int := 0
  packet_count : Nat := 0
  byte_count : Int := 0
  start_time : ℚ := 0
  end_time : ℚ := 0
  payload_fingerprint : String := ""
  http_headers : List (String × String) := []
  packet_sizes : List Int := []
  file_source : String := ""
  forward_start : ℚ := 0
  forward_end : ℚ := 0
  forward_packets : Nat := 0
  forward_bytes : Int := 0
  backward_start : ℚ := 0
  backward_end : ℚ := 0
  backward_packets : Nat := 0
  backward_bytes : Int := 0
deriving DecidableEq, Inhabited

/-- One record of the tshark field stream for the session-extraction pass
(`tcp.stream, ip.src, ip.dst, tcp.srcport, tcp.dstport, frame.time_epoch,
frame.len, tcp.payload`); `none` models an absent key. -/
structure Row where
  stream : Option String := none
  ipSrc : Option String := none
  ipDst : Option String := none
  srcport : Option String := none
  dstport : Option String := none
  timeEpoch : Option String := none
  frameLen : Option String := none
  payload : Option String := none
deriving DecidableEq, Inhabited

/-- `int(row.get(f, 0))`: a missing key yields the integer default 0; a present
value is parsed and a parse failure raises (modelled as `none`). -/
def parseIntField : Option String → Option Int
  | none => some 0
  | some s => pyParseInt s

/-- `float(row.get(f, 0))`, same convention. -/
def parseFloatField : Option String → Option ℚ
  | none => some 0
  | some s => pyParseFloat s

/-- Mutable per-file session dictionary keyed by `tcp.stream`. -/
abbrev SessState := List (String × SessionInfo)

def FINGERPRINT_SIZE : Nat := 64
def TIME_WINDOW : ℚ := 0.5
def MIN_CONFIDENCE : ℚ := 0.6

/-- `start_time`/`end_time` update (zero treated as uninitialized). -/
def sessWindow (ts : ℚ) (s : SessionInfo) : SessionInfo :=
  let s := if s.start_time = 0 ∨ ts < s.start_time then { s with start_time := ts } else s
  if ts > s.end_time then { s with end_time := ts } else s

/-- `forward_start`/`forward_end` update. -/
def fwdWindow (ts : ℚ) (s : SessionInfo) : SessionInfo :=
  let s := if s.forward_start = 0 ∨ ts < s.forward_start then { s with forward_start := ts } else s
  if ts > s.forward_end then { s with forward_end := ts } else s

/-- `backward_start`/`backward_end` update. -/
def bwdWindow (ts : ℚ) (s : SessionInfo) : SessionInfo :=
  let s := if s.backward_start = 0 ∨ ts < s.backward_start then { s with backward_start := ts } else s
  if ts > s.backward_end then { s with backward_end := ts } else s

/-- Timing/direction block of `_extract_sessions` (the body of the row-level
`try`, entered only when `frame.time_epoch` converts). -/
def updateTiming (r : Row) (frame_len : Int) (ts : ℚ) (s : SessionInfo) : SessionInfo :=
  let s := sessWindow ts s
  let is_forward := (r.ipSrc.getD "") = s.src_ip
  if is_forward then
    fwdWindow ts { s with forward_packets := s.forward_packets + 1,
                          forward_bytes := s.forward_bytes + frame_len }
  else
    bwdWindow ts { s with backward_packets := s.backward_packets + 1,
                          backward_bytes := s.backward_bytes + frame_len }

/-- Fingerprint block of `_extract_sessions`: on the first packet carrying a
hex-decodable payload of at least 8 bytes, hash the first `FINGERPRINT_SIZE`
bytes.  `md5f` is the oracle for `hashlib.md5(·).hexdigest()[:16]`. -/
def updateFingerprint (md5f : List Nat → String) (r : Row) (s : SessionInfo) : SessionInfo :=
  if s.payload_fingerprint = "" then
    match r.payload with
    | none => s
    | some p =>
      if p = "" then s
      else match hexPairs (removeColons p.data) with
        | none => s
        | some bs =>
          if 8 ≤ bs.length then
            { s with payload_fingerprint := md5f (bs.take FINGERPRINT_SIZE) }
          else s
  else s

/-- `session.packet_count += 1`. -/
def bumpPacketCount (s : SessionInfo) : SessionInfo :=
  { s with packet_count := s.packet_count + 1 }

/-- `session.byte_count += frame_len`. -/
def addFrameLen (frame_len : Int) (s : SessionInfo) : SessionInfo :=
  { s with byte_count := s.byte_count + frame_len }

/-- `if len(session.packet_sizes) < 20: session.packet_sizes.append(frame_len)`. -/
def pushSize (frame_len : Int) (s : SessionInfo) : SessionInfo :=
  if s.packet_sizes.length < 20 then { s with packet_sizes := s.packet_sizes ++ [frame_len] }
  else s

/-- One iteration of the row loop of `_extract_sessions`.  The second component
is the abort flag: `true` when an unhandled `ValueError` (non-integer
`tcp.srcport`/`tcp.dstport` at session creation, or non-integer `frame.len`)
escapes to the loop-level `except`, ending the iteration with the state built
so far. -/
def stepRow (md5f : List Nat → String) (fileSource : String) (st : SessState) (r : Row) :
    SessState × Bool :=
  match r.stream with
  | none => (st, false)
  | some sid =>
    if sid = "" then (st, false)
    else
      let created : Option SessState :=
        if (alookup sid st).isSome then some st
        else match parseIntField r.srcport, parseIntField r.dstport with
          | some sp, some dp =>
            some (st ++ [(sid,
              { session_id := sid
                src_ip := r.ipSrc.getD ""
                src_port := sp
                dst_ip := r.ipDst.getD ""
                dst_port := dp
                file_source := fileSource })])
          | _, _ => none
      match created with
      | none => (st, true)
      | some st1 =>
        let s := (alookup sid st1).getD default
        let s := bumpPacketCount s
        match parseIntField r.frameLen with
        | none => (aset sid s st1, true)
        | some frame_len =>
          let s := addFrameLen frame_len s
          let s := pushSize frame_len s
          let s := match parseFloatField r.timeEpoch with
            | none => s
            | some ts => updateTiming r frame_len ts s
          let s := updateFingerprint md5f r s
          (aset sid s st1, false)

/-- The row loop: runs `stepRow` until exhaustion or abort. -/
def runRows (md5f : List Nat → String) (fileSource : String) (st : SessState) :
    List Row → SessState × Bool
  | [] => (st, false)
  | r :: rs =>
    match stepRow md5f fileSource st r with
    | (st', false) => runRows md5f fileSource st' rs
    | (st', true) => (st', true)

/-- Correlation headers searched for in HTTP payloads. -/
def correlationHeaders : List String :=
  ["x-request-id", "x-correlation-id", "x-trace-id", "x-forwarded-for", "x-real-ip"]

/-- One record of the HTTP-pass field stream (`tcp.stream`,
`http.x_forwarded_for`, `tcp.payload`; `http.request.line` is projected by the
source but never read). -/
structure HttpRow where
  stream : Option String := none
  xff : Option String := none
  payload : Option String := none
deriving DecidableEq, Inhabited

/-- `Parse X-Forwarded-For` block of `_extract_http_headers`. -/
def xffUpd (r : HttpRow) (s : SessionInfo) : SessionInfo :=
  match r.xff with
  | some v =>
    if v ≠ "" then { s with http_headers := aset "x-forwarded-for" v s.http_headers } else s
  | none => s

/-- Payload-scanning block of `_extract_http_headers`: for each correlation
header found by the oracle, store the (trimmed) value under its name. -/
def payloadHdrUpd (hdrOracle : String → String → Option String) (r : HttpRow)
    (s : SessionInfo) : SessionInfo :=
  match r.payload with
  | none => s
  | some p =>
    if p = "" then s
    else correlationHeaders.foldl
      (fun acc h => match hdrOracle h p with
        | some v => { acc with http_headers := aset h v acc.http_headers }
        | none => acc) s

/-- One iteration of `_extract_http_headers`.  `hdrOracle h p` models the
composite `re.search(rf"{h}:\s*([^\r\n]+)", utf8lossy(fromhex(p)), IGNORECASE)`
followed by `.group(1).strip()`; hex-decoding failures are `none` for every
header, matching the enclosing `try`. -/
def httpStep (hdrOracle : String → String → Option String) (st : SessState) (r : HttpRow) :
    SessState :=
  match r.stream with
  | none => st
  | some sid =>
    if sid = "" then st
    else match alookup sid st with
      | none => st
      | some s =>
        let s := xffUpd r s
        let s := payloadHdrUpd hdrOracle r s
        aset sid s st

/-- `_extract_http_headers`: second pass mutating `http_headers` in place. -/
def extractHttpHeaders (hdrOracle : String → String → Option String)
    (httpRows : List HttpRow) (st : SessState) : SessState :=
  httpRows.foldl (httpStep hdrOracle) st

/-- `_extract_sessions`: first pass over the `tcp`-filtered stream, then the
HTTP header harvest, then `list(sessions.values())`. -/
def extractSessions (md5f : List Nat → String) (hdrOracle : String → String → Option String)
    (fileSource : String) (rows : List Row) (httpRows : List HttpRow) : List SessionInfo :=
  (extractHttpHeaders hdrOracle httpRows (runRows md5f fileSource [] rows).1).map (·.2)

/-- Python's `n & m != 0` for a single-bit mask `2^k`, on the infinite
two's-complement view of `int` (floor shift, then parity). -/
def pyBitSet (n : Int) (k : Nat) : Bool := (n.fdiv (2 ^ k)).emod 2 = 1

/-- `_parse_tcp_flags`: convert a tshark `tcp.flags` value to mnemonics. -/
def parseTcpFlags (flags_value : String) : String :=
  match (if flags_value.startsWith "0x" then pyParseHex flags_value else pyParseInt flags_value) with
  | some flags_int =>
    let parts : List String :=
      (if pyBitSet flags_int 1 then ["SYN"] else []) ++
      (if pyBitSet flags_int 4 then ["ACK"] else []) ++
      (if pyBitSet flags_int 3 then ["PSH"] else []) ++
      (if pyBitSet flags_int 0 then ["FIN"] else []) ++
      (if pyBitSet flags_int 2 then ["RST"] else []) ++
      (if pyBitSet flags_int 5 then ["URG"] else [])
    if parts = [] then "---" else String.intercalate "," parts
  | none => if flags_value = "" then "---" else flags_value

/-- Stable sort of sessions by `start_time` (Python `sort(key=...start_time)`). -/
def sortByStart (l : List SessionInfo) : List SessionInfo :=
  l.mergeSort (fun a b => a.start_time ≤ b.start_time)

/-- `fingerprint_index`: group sessions by non-empty fingerprint, insertion
ordered (`defaultdict(list)`). -/
def groupByFingerprint (sessions : List SessionInfo) : List (String × List SessionInfo) :=
  sessions.foldl
    (fun acc s => if s.payload_fingerprint ≠ "" then apush s.payload_fingerprint s acc else acc) []

/-- The classification applied by `_match_by_payload_fingerprint` to an ordered
pair of a sorted group, transcribed from the `continue`/`elif` ladder. -/
def codeClassifyFP (s1 s2 : SessionInfo) : Option ℚ :=
  if s1.src_ip = s2.src_ip ∧ s1.dst_ip = s2.dst_ip then none
  else if |s2.start_time - s1.start_time| > TIME_WINDOW * 2 then none
  else
    let is_direct_proxy := s1.dst_ip = s2.src_ip
    let is_port_preserved := s1.src_port = s2.src_port ∧ s1.src_ip ≠ s2.src_ip
    let is_same_vip := s1.dst_ip = s2.dst_ip ∧ s1.src_ip ≠ s2.src_ip
    if is_direct_proxy then some 0.90
    else if is_port_preserved ∧ is_same_vip then some 0.85
    else if is_port_preserved ∨ is_same_vip then some 0.75
    else none

/-- The `i < j` double loop over one sorted group, parameterized by the pair
classifier. -/
def pairScan (cl : SessionInfo → SessionInfo → Option ℚ) :
    List SessionInfo → List (SessionInfo × SessionInfo × ℚ)
  | [] => []
  | s1 :: tl =>
    tl.filterMap (fun s2 => (cl s1 s2).map (fun c => (s1, s2, c))) ++ pairScan cl tl

/-- `_match_by_payload_fingerprint`. -/
def matchByPayloadFingerprint (sessions : List SessionInfo) :
    List (SessionInfo × SessionInfo × ℚ) :=
  (groupByFingerprint sessions).flatMap
    (fun g => if 2 ≤ g.2.length then pairScan codeClassifyFP (sortByStart g.2) else [])

/-- Classification following the specification's table verbatim: reject
identical `(src_ip, dst_ip)`, reject `|Δt| > 2·TIME_WINDOW`, then direct proxy
0.90 / port-preserved AND same-VIP 0.85 / port-preserved XOR same-VIP 0.75 /
otherwise no match. -/
def specClassifyFP (s1 s2 : SessionInfo) : Option ℚ :=
  if s1.src_ip = s2.src_ip ∧ s1.dst_ip = s2.dst_ip then none
  else if |s1.start_time - s2.start_time| > 1 then none
  else if s1.dst_ip = s2.src_ip then some 0.90
  else if s1.src_port = s2.src_port ∧ s1.src_ip ≠ s2.src_ip ∧ s1.dst_ip = s2.dst_ip then some 0.85
  else if Xor' (s1.src_port = s2.src_port ∧ s1.src_ip ≠ s2.src_ip)
               (s1.dst_ip = s2.dst_ip ∧ s1.src_ip ≠ s2.src_ip) then some 0.75
  else none

/-- The fingerprint matcher as the specification words it (same grouping and
ordering, specification-side classification). -/
def specFingerprintMatches (sessions : List SessionInfo) :
    List (SessionInfo × SessionInfo × ℚ) :=
  (groupByFingerprint sessions).flatMap
    (fun g => if 2 ≤ g.2.length then pairScan specClassifyFP (sortByStart g.2) else [])

/-- The per-position tolerance check of `_size_sequence_similarity`:
`abs(s1 - s2) <= max(100, 0.2 * max(s1, s2))`. -/
def sizeTol (x y : Int) : Prop :=
  |(x : ℚ) - (y : ℚ)| ≤ max 100 (0.2 * max (x : ℚ) (y : ℚ))

instance (x y : Int) : Decidable (sizeTol x y) := by unfold sizeTol; infer_instance

/-- `_size_sequence_similarity`. -/
def sizeSequenceSimilarity (sizes1 sizes2 : List Int) : ℚ :=
  if sizes1 = [] ∨ sizes2 = [] then 0
  else
    let n := min (min sizes1.length sizes2.length) 10
    if n < 3 then 0
    else
      let matched := ((sizes1.take n).zip (sizes2.take n)).countP
        (fun p => sizeTol p.1 p.2)
      (matched : ℚ) / (n : ℚ)

/-- Size-sequence similarity exactly as the specification words it: over the
first `n = min(|sizes1|, |sizes2|, 10)` positions, 0 when `n < 3`, a position
matching when `|s1_i − s2_i| ≤ max(100, 0.2·max(s1_i, s2_i))`, result
`matches / n`. -/
def specSimilarity (sizes1 sizes2 : List Int) : ℚ :=
  let n := min (min sizes1.length sizes2.length) 10
  if n < 3 then 0
  else
    (((List.range n).countP
      (fun i => sizeTol (sizes1.getD i 0) (sizes2.getD i 0)) : ℚ)) / (n : ℚ)

/-- `_is_valid_hop_pair`. -/
def isValidHopPair (s1 s2 : SessionInfo) : Bool :=
  let is_direct_proxy := s1.dst_ip = s2.src_ip
  let is_port_preserved := s1.src_port = s2.src_port ∧ s1.src_ip ≠ s2.src_ip
  let is_same_vip := s1.dst_ip = s2.dst_ip ∧ s1.src_ip ≠ s2.src_ip
  decide (is_direct_proxy ∨ (is_port_preserved ∧ is_same_vip) ∨ is_port_preserved)

/-- Sort the member keys of a component by their session's `start_time`. -/
def sortKeysByStart (m : String → SessionInfo) (keys : List String) : List String :=
  keys.mergeSort (fun a b => (m a).start_time ≤ (m b).start_time)

/-- The walking loop of `_split_invalid_chains`: `curRev` is the current chain
reversed, `lastK` its most recent member, `acc` the closed chains. -/
def splitLoop (m : String → SessionInfo) :
    List String → List String → String → List (List String) → List (List String)
  | [], curRev, _, acc => if 2 ≤ curRev.length then acc ++ [curRev.reverse] else acc
  | k :: tl, curRev, lastK, acc =>
    if isValidHopPair (m lastK) (m k) then splitLoop m tl (k :: curRev) k acc
    else if 2 ≤ curRev.length then splitLoop m tl [k] k (acc ++ [curRev.reverse])
    else splitLoop m tl [k] k acc

/-- `_split_invalid_chains` (the `session_map` is passed as a total lookup;
the source only ever queries keys present in the map). -/
def splitInvalidChains (group_keys : List String) (m : String → SessionInfo) :
    List (List String) :=
  if group_keys.length ≤ 1 then [group_keys]
  else
    match sortKeysByStart m group_keys with
    | [] => []
    | k0 :: rest => splitLoop m rest [k0] k0 []

/-- Specification-side greedy split: the maximal valid-hop run from the head,
then recurse on the remainder. -/
def takeRun (m : String → SessionInfo) (lastK : String) :
    List String → List String × List String
  | [] => ([], [])
  | k :: tl =>
    if isValidHopPair (m lastK) (m k) then
      let pr := takeRun m k tl
      (k :: pr.1, pr.2)
    else ([], k :: tl)

theorem takeRun_snd_length (m : String → SessionInfo) (lastK : String) (l : List String) :
    (takeRun m lastK l).2.length ≤ l.length := by
  induction l generalizing lastK with
  | nil => simp [takeRun]
  | cons k tl ih =>
    simp only [takeRun]
    by_cases h : isValidHopPair (m lastK) (m k) = true
    · simpa [h] using Nat.le_succ_of_le (ih k)
    · simp [h]

/-- Greedy splitting as the specification words it: walk the sorted list, keep
each maximal chain of valid hops when its length is at least 2. -/
def specGreedySplit (m : String → SessionInfo) : List String → List (List String)
  | [] => []
  | k :: tl =>
    let pr := takeRun m k tl
    have _h : pr.2.length < (k :: tl).length := Nat.lt_succ_of_le (takeRun_snd_length m k tl)
    (if 2 ≤ (k :: pr.1).length then [k :: pr.1] else []) ++ specGreedySplit m pr.2
termination_by l => l.length

/-- Matcher output triple `(s1, s2, confidence)`. -/
abbrev MatchT := SessionInfo × SessionInfo × ℚ

/-- Deduplicated edge `(s1, s2, confidence, method)`. -/
abbrev Match4 := SessionInfo × SessionInfo × ℚ × String

/-- Python whitespace for `str.strip()`. -/
def isPySpace (c : Char) : Bool :=
  c = ' ' ∨ c = '\t' ∨ c = '\n' ∨ c = '\r' ∨ c = '\x0b' ∨ c = '\x0c'

/-- Python `str.strip()`. -/
def pyStrip (s : String) : String :=
  String.mk (((s.data.dropWhile isPySpace).reverse.dropWhile isPySpace).reverse)

/-- `header_indices` of `_match_by_http_headers`: per correlation-id header, per
value, the sessions carrying it, all insertion ordered. -/
def buildHeaderIndices (sessions : List SessionInfo) :
    List (String × List (String × List SessionInfo)) :=
  sessions.foldl
    (fun acc s => s.http_headers.foldl
      (fun acc2 hv =>
        if hv.2 ≠ "" ∧ hv.1 ∈ ["x-request-id", "x-correlation-id", "x-trace-id"] then
          match alookup hv.1 acc2 with
          | none => acc2 ++ [(hv.1, [(hv.2, [s])])]
          | some inner => aset hv.1 (apush hv.2 s inner) acc2
        else acc2) acc) []

/-- `_match_by_http_headers`. -/
def matchByHttpHeaders (sessions : List SessionInfo) : List MatchT :=
  let idMatches :=
    (buildHeaderIndices sessions).flatMap (fun hv =>
      hv.2.flatMap (fun vg =>
        if 2 ≤ vg.2.length then
          pairScan (fun a b => if a.session_id ≠ b.session_id then some 0.95 else none)
            (sortByStart vg.2)
        else []))
  let xffMatches :=
    sessions.flatMap (fun s =>
      let xff := (alookup "x-forwarded-for" s.http_headers).getD ""
      if xff = "" then []
      else
        let client_ips := (xff.data.splitOn ',').map (fun c => pyStrip (String.mk c))
        sessions.filterMap (fun other =>
          if other.session_id ≠ s.session_id ∧ other.src_ip ∈ client_ips ∧
             |other.start_time - s.start_time| < TIME_WINDOW then
            some (other, s, 0.90)
          else none))
  idMatches ++ xffMatches

/-- Innermost body of `_match_by_timing_and_size` once a candidate `s2` is in
the time window: the `continue` ladder and the similarity gate. -/
def timingEmit (s1 s2 : SessionInfo) : List MatchT :=
  if s2.start_time - s1.start_time < 0.001 then []
  else if s1.src_ip = s2.src_ip ∧ s1.dst_ip = s2.dst_ip then []
  else
    let is_direct_proxy := s1.dst_ip = s2.src_ip
    let is_snat_pattern :=
      s1.src_port = s2.src_port ∧ s1.dst_ip = s2.dst_ip ∧ s1.src_ip ≠ s2.src_ip
    let is_port_preserved_proxy :=
      s1.src_port = s2.src_port ∧ s1.src_ip ≠ s2.src_ip ∧
        (s1.dst_ip = s2.dst_ip ∨ s1.dst_ip = s2.src_ip)
    if ¬(is_direct_proxy ∨ is_snat_pattern ∨ is_port_preserved_proxy) then []
    else if s1.packet_sizes ≠ [] ∧ s2.packet_sizes ≠ [] then
      let similarity := sizeSequenceSimilarity s1.packet_sizes s2.packet_sizes
      if similarity > 0.6 then [(s1, s2, 0.5 + similarity * 0.3)] else []
    else []

/-- Inner `j` loop: `break` at the first candidate outside the time window. -/
def timingInner (s1 : SessionInfo) : List SessionInfo → List MatchT
  | [] => []
  | s2 :: tl =>
    if s2.start_time - s1.start_time > TIME_WINDOW then []
    else timingEmit s1 s2 ++ timingInner s1 tl

/-- Outer `i` loop over the time-sorted sessions. -/
def timingScan : List SessionInfo → List MatchT
  | [] => []
  | s1 :: tl => timingInner s1 tl ++ timingScan tl

/-- `_match_by_timing_and_size`. -/
def matchByTimingAndSize (sessions : List SessionInfo) : List MatchT :=
  timingScan (sortByStart sessions)

/-- `{s.file_source}:{s.session_id}`. -/
def fsKey (s : SessionInfo) : String := s.file_source ++ ":" ++ s.session_id

/-- The `best_matches` deduplication loop shared by both trace entry points,
parameterized by the edge key: first edge per key wins unless a later edge has
strictly greater confidence. -/
def dedupBest {κ : Type} [DecidableEq κ] (key : Match4 → κ) (ms : List Match4) :
    List (κ × Match4) :=
  ms.foldl
    (fun best m => match alookup (key m) best with
      | none => best ++ [(key m, m)]
      | some old => if m.2.2.1 > old.2.2.1 then aset (key m) m best else best) []

/-- Edge key of `trace_single_file`: `tuple(sorted([s1.session_id, s2.session_id]))`. -/
def sidPairKey (m : Match4) : String × String := pairSorted m.1.session_id m.2.1.session_id

/-- Edge key of `trace_multi_file`: the sorted pair of `file_source:session_id`. -/
def fsPairKey (m : Match4) : String × String := pairSorted (fsKey m.1) (fsKey m.2.1)

/-- The deduplication of `trace_single_file`. -/
def dedupSingle (ms : List Match4) : List Match4 := (dedupBest sidPairKey ms).map (·.2)

/-- The deduplication of `trace_multi_file`. -/
def dedupMulti (ms : List Match4) : List Match4 := (dedupBest fsPairKey ms).map (·.2)

/-- `round(q, d)`: Python's round-half-to-even at `d` decimal places (modelled
exactly on ℚ; the binary-float tie behaviour differs only on exact decimal
ties, which no claim exercises). -/
def roundHalfEven (q : ℚ) : Int :=
  let fl := ⌊q⌋
  let fr := q - fl
  if fr < 1 / 2 then fl
  else if fr > 1 / 2 then fl + 1
  else if fl % 2 = 0 then fl else fl + 1

def pyRound (q : ℚ) (d : Nat) : ℚ := (roundHalfEven (q * 10 ^ d) : ℚ) / 10 ^ d

/-- `PacketInfo` dataclass. -/
structure PacketInfo where
  seq : Nat
  frame_number : Int
  time_epoch : ℚ
  relative_time_ms : ℚ
  size : Int
  src_port : Int
  dst_port : Int
  seq_num : Int
  ack_num : Int
  flags : String
  window_size : Int
  checksum : String
  options : String
  urgent_pointer : Int
  info : String
  is_retransmission : Bool
deriving DecidableEq, Inhabited

/-- One record of the per-hop packet stream (`tcp.stream eq <id>` filter). -/
structure HopRow where
  frameNumber : Option String := none
  timeEpoch : Option String := none
  frameLen : Option String := none
  ipSrc : Option String := none
  srcport : Option String := none
  dstport : Option String := none
  seqNo : Option String := none
  ackNo : Option String := none
  flags : Option String := none
  winSize : Option String := none
  checksum : Option String := none
  urgPtr : Option String := none
  optionsStr : Option String := none
  colInfo : Option String := none
  retrans : Option String := none
deriving DecidableEq, Inhabited

/-- The row loop of `_extract_hop_packets`: direction filter, sequence index,
relative time against the first retained packet; any field conversion error is
caught by the loop-level `except`, returning the packets built so far. -/
def hopLoop (src_ip direction : String) (packets : List PacketInfo) (first_time : ℚ)
    (seq_counter : Nat) : List HopRow → List PacketInfo
  | [] => packets
  | r :: tl =>
    let pkt_src_ip := r.ipSrc.getD ""
    let is_forward := pkt_src_ip = src_ip
    if (direction = "request" ∧ ¬is_forward) ∨ (direction = "response" ∧ is_forward) then
      hopLoop src_ip direction packets first_time seq_counter tl
    else
      let seq_counter := seq_counter + 1
      match parseFloatField r.timeEpoch with
      | none => packets
      | some time_epoch =>
        let first_time := if first_time = 0 then time_epoch else first_time
        match parseIntField r.frameNumber, parseIntField r.frameLen, parseIntField r.srcport,
              parseIntField r.dstport, parseIntField r.seqNo, parseIntField r.ackNo,
              parseIntField r.winSize, parseIntField r.urgPtr with
        | some fn, some sz, some sp, some dp, some sq, some ak, some ws, some up =>
          let pkt : PacketInfo := {
            seq := seq_counter
            frame_number := fn
            time_epoch := time_epoch
            relative_time_ms := pyRound ((time_epoch - first_time) * 1000) 3
            size := sz
            src_port := sp
            dst_port := dp
            seq_num := sq
            ack_num := ak
            flags := parseTcpFlags (r.flags.getD "")
            window_size := ws
            checksum := r.checksum.getD ""
            options := r.optionsStr.getD ""
            urgent_pointer := up
            info := r.colInfo.getD ""
            is_retransmission := r.retrans.getD "" ≠ "" }
          hopLoop src_ip direction (packets ++ [pkt]) first_time seq_counter tl
        | _, _, _, _, _, _, _, _ => packets

/-- `_extract_hop_packets` given the rows the dissector yields for the
session's stream filter. -/
def extractHopPackets (rows : List HopRow) (src_ip direction : String) : List PacketInfo :=
  hopLoop src_ip direction [] 0 0 rows

/-- `ChainHop` dataclass. -/
structure ChainHop where
  session_id : String
  src : String
  dst : String
  packet_count : Nat
  byte_count : Int
  duration : ℚ
  file : String
  direction : String
  start_time : ℚ
  missing : Bool
  packets : List PacketInfo
  total_packets : Nat
deriving DecidableEq, Inhabited

/-- `SessionChain` dataclass. -/
structure SessionChain where
  chain_id : String
  confidence : ℚ
  method : String
  hops : List ChainHop
  latency_ms : ℚ
deriving DecidableEq, Inhabited

/-- Fueled root chase for the union-find `find` (the parent forest built by
`union` is acyclic, so `p.length` steps reach the root; path compression
changes the forest shape but never the roots). -/
def ufFind (p : List (String × String)) : Nat → String → String
  | 0, x => x
  | fuel + 1, x =>
    match alookup x p with
    | none => x
    | some px => if px = x then x else ufFind p fuel px

def ufRoot (p : List (String × String)) (x : String) : String := ufFind p p.length x

def ufInsert (p : List (String × String)) (x : String) : List (String × String) :=
  if (alookup x p).isSome then p else p ++ [(x, x)]

/-- `union(x, y)`: `parent[find(x)] := find(y)` when the roots differ. -/
def ufUnion (p : List (String × String)) (x y : String) : List (String × String) :=
  let p := ufInsert (ufInsert p x) y
  let px := ufRoot p x
  let py := ufRoot p y
  if px ≠ py then aset px py p else p

/-- First-occurrence deduplication (iteration over a Python `set` is modelled
in first-occurrence order; the source does not rely on `set` order except in
`max(set(...), key=count)` ties, which no claim constrains). -/
def dedupFirst : List String → List String
  | [] => []
  | x :: tl => x :: (dedupFirst tl).filter (fun y => y ≠ x)

/-- `max(set(methods_used), key=methods_used.count)` with `"unknown"` for an
empty list. -/
def pickModal (ms : List String) : String :=
  match dedupFirst ms with
  | [] => "unknown"
  | m0 :: tl => tl.foldl (fun best x => if ms.count best < ms.count x then x else best) m0

/-- Confidence/method lookup for a consecutive key pair: either stored
orientation, else `(0.5, "inferred")`. -/
def edgeInfo (match_info : List ((String × String) × (ℚ × String))) (k1 k2 : String) :
    ℚ × String :=
  match alookup (k1, k2) match_info with
  | some cm => cm
  | none =>
    match alookup (k2, k1) match_info with
    | some cm => cm
    | none => (0.5, "inferred")

/-- Hop ordering key: `start_time` when positive, else `float("inf")`. -/
def hopLe (h1 h2 : ChainHop) : Bool :=
  if 0 < h1.start_time then
    (if 0 < h2.start_time then decide (h1.start_time ≤ h2.start_time) else true)
  else (if 0 < h2.start_time then false else true)

/-- `f"chain_{n:03d}"`. -/
def chainId (n : Nat) : String :=
  "chain_" ++ (if n < 10 then "00" else if n < 100 then "0" else "") ++ toString n

/-- The two directional hops emitted for one session of a chain. -/
def mkHops (hopRows : String → String → List HopRow) (filepath : String)
    (file_mapping : Option (List (String × String))) (include_packets : Bool)
    (s : SessionInfo) : List ChainHop :=
  let file_path_for_packets :=
    if filepath ≠ "" then filepath
    else match file_mapping with
      | some fm => (alookup s.file_source fm).getD ""
      | none => ""
  let forward_packets_list :=
    if include_packets ∧ file_path_for_packets ≠ "" ∧ 0 < s.forward_packets then
      extractHopPackets (hopRows file_path_for_packets s.session_id) s.src_ip "request"
    else []
  let forward_hop : ChainHop := {
    session_id := s.session_id
    src := s.src_ip ++ ":" ++ toString s.src_port
    dst := s.dst_ip ++ ":" ++ toString s.dst_port
    packet_count := s.forward_packets
    byte_count := s.forward_bytes
    duration := if 0 < s.forward_packets then pyRound (s.forward_end - s.forward_start) 3 else 0
    file := s.file_source
    direction := "request"
    start_time := s.forward_start
    missing := s.forward_packets = 0
    packets := forward_packets_list
    total_packets := forward_packets_list.length }
  let backward_packets_list :=
    if include_packets ∧ file_path_for_packets ≠ "" ∧ 0 < s.backward_packets then
      extractHopPackets (hopRows file_path_for_packets s.session_id) s.src_ip "response"
    else []
  let backward_hop : ChainHop := {
    session_id := s.session_id
    src := s.dst_ip ++ ":" ++ toString s.dst_port
    dst := s.src_ip ++ ":" ++ toString s.src_port
    packet_count := s.backward_packets
    byte_count := s.backward_bytes
    duration := if 0 < s.backward_packets then pyRound (s.backward_end - s.backward_start) 3 else 0
    file := s.file_source
    direction := "response"
    start_time := s.backward_start
    missing := s.backward_packets = 0
    packets := backward_packets_list
    total_packets := backward_packets_list.length }
  [forward_hop, backward_hop]

/-- One chain assembled from a valid sub-chain of keys. -/
def mkChain (hopRows : String → String → List HopRow) (filepath : String)
    (file_mapping : Option (List (String × String))) (include_packets : Bool)
    (lookupS : String → SessionInfo)
    (match_info : List ((String × String) × (ℚ × String)))
    (sorted_keys : List String) (counter : Nat) : SessionChain :=
  let pairs := sorted_keys.zip sorted_keys.tail
  let total_conf : ℚ := (pairs.map (fun p => (edgeInfo match_info p.1 p.2).1)).sum
  let methods_used := pairs.map (fun p => (edgeInfo match_info p.1 p.2).2)
  let avg_confidence : ℚ :=
    if 1 < sorted_keys.length then total_conf / ((sorted_keys.length : ℚ) - 1) else 0.5
  let primary_method := if methods_used = [] then "unknown" else pickModal methods_used
  let directional_hops :=
    sorted_keys.flatMap (fun k => mkHops hopRows filepath file_mapping include_packets (lookupS k))
  let hops := directional_hops.mergeSort hopLe
  let latency_ms : ℚ :=
    if 2 ≤ sorted_keys.length then
      let first_session := lookupS (sorted_keys.headD "")
      let last_session := lookupS (sorted_keys.getLastD "")
      let first_time := if first_session.forward_start = 0 then first_session.start_time
                        else first_session.forward_start
      let last_time := if last_session.backward_end = 0 then last_session.end_time
                       else last_session.backward_end
      (last_time - first_time) * 1000
    else 0
  { chain_id := chainId counter
    confidence := pyRound avg_confidence 2
    method := primary_method
    hops := hops
    latency_ms := pyRound latency_ms 2 }

/-- `_build_chains` (the `matches` argument of the source is called `edges`
here; `matches` is a reserved word in Lean). -/
def buildChains (hopRows : String → String → List HopRow) (edges : List Match4)
    (filepath : String) (file_mapping : Option (List (String × String)))
    (include_packets : Bool) : List SessionChain :=
  if edges = [] then []
  else
    let parent := edges.foldl (fun p m => ufUnion p (fsKey m.1) (fsKey m.2.1)) []
    let session_map :=
      edges.foldl (fun sm m => aset (fsKey m.2.1) m.2.1 (aset (fsKey m.1) m.1 sm)) []
    let match_info :=
      edges.foldl (fun mi m => aset (fsKey m.1, fsKey m.2.1) (m.2.2.1, m.2.2.2) mi) []
    let groups : List (String × List String) :=
      session_map.foldl (fun g e => apush (ufRoot parent e.1) e.1 g) []
    let lookupS := fun k => (alookup k session_map).getD default
    let built := groups.foldl
      (fun (acc : List SessionChain × Nat) g =>
        if g.2.length < 2 then acc
        else (splitInvalidChains g.2 lookupS).foldl
          (fun acc2 sorted_keys =>
            if sorted_keys.length < 2 then acc2
            else (acc2.1 ++ [mkChain hopRows filepath file_mapping include_packets lookupS
                    match_info sorted_keys (acc2.2 + 1)], acc2.2 + 1))
          acc)
      ([], 0)
    built.1.mergeSort (fun a b => b.confidence ≤ a.confidence)

/-- A value of the `stats` dictionary. -/
inductive StatVal where
  | num (n : Nat)
  | methods (m : List (String × Nat))
deriving DecidableEq

/-- One entry of `unmatched_sessions`. -/
structure UnmatchedEntry where
  session_id : String
  src : String
  dst : String
  packets : Nat
deriving DecidableEq, Inhabited

/-- The dictionary returned by `trace_single_file` (fixed top-level keys
`chains`, `unmatched_sessions`, `stats`; the `stats` dictionary is kept as an
association list so that its key set is observable). -/
structure TraceResult where
  chains : List SessionChain
  unmatched_sessions : List UnmatchedEntry
  stats : List (String × StatVal)
deriving DecidableEq

/-- `filepath.split("/")[-1]`. -/
def basenameOf (p : String) : String := String.mk ((p.data.splitOn '/').getLastD [])

/-- `trace_single_file`, with the dissector streams passed in: `rows` for the
`tcp`-filtered pass, `httpRows` for the `http`-filtered pass, and `hopRows`
for the per-session packet streams. -/
def traceSingleFile (md5f : List Nat → String) (hdrOracle : String → String → Option String)
    (hopRows : String → String → List HopRow) (filepath : String)
    (rows : List Row) (httpRows : List HttpRow) : TraceResult :=
  let sessions := extractSessions md5f hdrOracle (basenameOf filepath) rows httpRows
  if sessions = [] then
    { chains := []
      unmatched_sessions := []
      stats := [("total_sessions", .num 0), ("matched_chains", .num 0),
                ("methods_used", .methods [])] }
  else
    let all_matches : List Match4 :=
      (matchByPayloadFingerprint sessions).map (fun m => (m.1, m.2.1, m.2.2, "payload_fingerprint")) ++
      (matchByHttpHeaders sessions).map (fun m => (m.1, m.2.1, m.2.2, "http_header")) ++
      (matchByTimingAndSize sessions).map (fun m => (m.1, m.2.1, m.2.2, "timing_size"))
    let best := dedupSingle all_matches
    let chains := buildChains hopRows best filepath none true
    let matched_ids := chains.foldl
      (fun acc c => c.hops.foldl
        (fun a h => if h.session_id ∈ a then a else a ++ [h.session_id]) acc) []
    let unmatched := (sessions.filter (fun s => s.session_id ∉ matched_ids)).map
      (fun s => { session_id := s.session_id
                  src := s.src_ip ++ ":" ++ toString s.src_port
                  dst := s.dst_ip ++ ":" ++ toString s.dst_port
                  packets := s.packet_count : UnmatchedEntry })
    let method_counts := chains.foldl (fun mc c => abump c.method mc) []
    { chains := chains
      unmatched_sessions := unmatched.take 50
      stats := [("total_sessions", .num sessions.length),
                ("matched_chains", .num chains.length),
                ("matched_sessions", .num matched_ids.length),
                ("methods_used", .methods method_counts)] }

/-- One record of the `analyze_tcp_sessions` field stream of `analyzer.py`. -/
structure ARow where
  stream : Option String := none
  ipSrc : Option String := none
  ipDst : Option String := none
  srcport : Option String := none
  dstport : Option String := none
  frameLen : Option String := none
  timeRel : Option String := none
  payload : Option String := none
  proto : Option String := none
  colInfo : Option String := none
deriving DecidableEq, Inhabited

/-- The per-stream aggregate of `analyze_tcp_sessions` (`defaultdict` entry). -/
structure ASess where
  src : String := ""
  dst : String := ""
  sport : String := ""
  dport : String := ""
  packet_count : Nat := 0
  bytes : Int := 0
  start_time : Option ℚ := none
  end_time : Option ℚ := none
  payload_hex : String := ""
  protocols : List (String × Nat) := []
  summary : String := ""
deriving DecidableEq, Inhabited

/-- `Capture first IP tuple seen in stream` block. -/
def aSetEndpoints (r : ARow) (s : ASess) : ASess :=
  if s.src = "" then
    { s with src := r.ipSrc.getD "?", dst := r.ipDst.getD "?",
             sport := r.srcport.getD "0", dport := r.dstport.getD "0" }
  else s

/-- `if s["start_time"] is None or ts < s["start_time"]`. -/
def aStartUpd (ts : ℚ) (s : ASess) : ASess :=
  match s.start_time with
  | none => { s with start_time := some ts }
  | some st0 => if ts < st0 then { s with start_time := some ts } else s

/-- `if s["end_time"] is None or ts > s["end_time"]`. -/
def aEndUpd (ts : ℚ) (s : ASess) : ASess :=
  match s.end_time with
  | none => { s with end_time := some ts }
  | some e => if ts > e then { s with end_time := some ts } else s

/-- `frame.time_relative` block (the row-level `try`; a parse failure skips
the whole block). -/
def aSetTiming (r : ARow) (s : ASess) : ASess :=
  match parseFloatField r.timeRel with
  | none => s
  | some ts => aEndUpd ts (aStartUpd ts s)

/-- Payload accumulation block: append the colon-stripped payload while the
accumulator holds fewer than 4000 characters. -/
def aSetPayload (r : ARow) (s : ASess) : ASess :=
  match r.payload with
  | some p =>
    if p ≠ "" ∧ s.payload_hex.length < 4000 then
      { s with payload_hex := s.payload_hex ++ String.mk (removeColons p.data) }
    else s
  | none => s

/-- `_ws.col.protocol` counter block. -/
def aSetProto (r : ARow) (s : ASess) : ASess :=
  match r.proto with
  | some pr => if pr ≠ "" then { s with protocols := abump pr s.protocols } else s
  | none => s

/-- `_ws.col.info` first-summary block. -/
def aSetSummary (r : ARow) (s : ASess) : ASess :=
  match r.colInfo with
  | some i => if i ≠ "" ∧ s.summary = "" then { s with summary := i } else s
  | none => s

/-- One iteration of the aggregation loop of `analyze_tcp_sessions`.  A
non-integer `frame.len` raises out of the whole function (no enclosing `try`),
modelled as `none`. -/
def aStep (st : List (String × ASess)) (r : ARow) : Option (List (String × ASess)) :=
  match r.stream with
  | none => some st
  | some sid =>
    if sid = "" then some st
    else
      let st1 := if (alookup sid st).isSome then st else st ++ [(sid, {})]
      let s := (alookup sid st1).getD {}
      let s := aSetEndpoints r s
      let s := { s with packet_count := s.packet_count + 1 }
      match parseIntField r.frameLen with
      | none => none
      | some pkt_len =>
        let s := { s with bytes := s.bytes + pkt_len }
        let s := aSetTiming r s
        let s := aSetPayload r s
        let s := aSetProto r s
        let s := aSetSummary r s
        some (aset sid s st1)

def aRun (st : List (String × ASess)) : List ARow → Option (List (String × ASess))
  | [] => some st
  | r :: tl =>
    match aStep st r with
    | none => none
    | some st' => aRun st' tl

/-- The aggregation phase of `analyze_tcp_sessions` over the dissector rows. -/
def analyzeTcpSessionsAgg (rows : List ARow) : Option (List (String × ASess)) :=
  aRun [] rows

/-- Well-formedness of an extraction row: the stream id is absent or empty (the
row is skipped), or every numeric field the row loop converts parses
(`tcp.srcport`, `tcp.dstport` as integers at creation, `frame.len` as an
integer, `frame.time_epoch` as a float). -/
def rowWF (r : Row) : Bool :=
  match r.stream with
  | none => true
  | some sid =>
    sid = "" ∨ ((parseIntField r.srcport).isSome ∧ (parseIntField r.dstport).isSome ∧
      (parseIntField r.frameLen).isSome ∧ (parseFloatField r.timeEpoch).isSome)

/-- Weaker condition: only the integer fields parse (`frame.time_epoch` and
`tcp.payload` may be arbitrary). -/
def intFieldsOK (r : Row) : Bool :=
  match r.stream with
  | none => true
  | some sid =>
    sid = "" ∨ ((parseIntField r.srcport).isSome ∧ (parseIntField r.dstport).isSome ∧
      (parseIntField r.frameLen).isSome)

/-- The six flow counters of a session. -/
def cnts (s : SessionInfo) : Nat × Nat × Nat × Int × Int × Int :=
  (s.packet_count, s.forward_packets, s.backward_packets,
   s.byte_count, s.forward_bytes, s.backward_bytes)

/-- The packet/byte conservation invariant claimed for `_extract_sessions`. -/
def flowInv (s : SessionInfo) : Prop :=
  s.packet_count = s.forward_packets + s.backward_packets ∧
  s.byte_count = s.forward_bytes + s.backward_bytes

/-- A row whose `frame.time_epoch` does not parse as a float. -/
def c1Row : Row :=
  { stream := some "1", ipSrc := some "10.0.0.1", ipDst := some "10.0.0.2",
    srcport := some "1000", dstport := some "80", timeEpoch := some "abc",
    frameLen := some "100" }

/-- A fully well-formed row (`frame.time_epoch` absent, so `float(0)` is used;
keeping the timestamps integral lets the concrete proofs evaluate without
rational normalization). -/
def c1wRow : Row :=
  { stream := some "1", ipSrc := some "10.0.0.1", ipDst := some "10.0.0.2",
    srcport := some "1000", dstport := some "80", frameLen := some "10" }

/-- A row of stream 1 whose `frame.len` is not an integer. -/
def c6BadRow : Row := { stream := some "1", frameLen := some "xx" }

/-- A well-formed row opening stream 2. -/
def c6GoodRow : Row :=
  { stream := some "2", ipSrc := some "10.0.0.3", ipDst := some "10.0.0.4",
    srcport := some "3000", dstport := some "80", frameLen := some "20" }

/-- The gates of `_match_by_timing_and_size` ahead of the similarity check, as
the specification words them: within the time window, `Δ ≥ 1 ms`, distinct
endpoints, proxy-compatible geometry (direct proxy, SNAT pattern, or
port-preserved proxy), and both size sequences non-empty. -/
def timingPairOK (s1 s2 : SessionInfo) : Prop :=
  s2.start_time - s1.start_time ≤ TIME_WINDOW ∧
  ¬(s2.start_time - s1.start_time < 0.001) ∧
  ¬(s1.src_ip = s2.src_ip ∧ s1.dst_ip = s2.dst_ip) ∧
  (s1.dst_ip = s2.src_ip ∨
   (s1.src_port = s2.src_port ∧ s1.dst_ip = s2.dst_ip ∧ s1.src_ip ≠ s2.src_ip) ∨
   (s1.src_port = s2.src_port ∧ s1.src_ip ≠ s2.src_ip ∧
     (s1.dst_ip = s2.dst_ip ∨ s1.dst_ip = s2.src_ip))) ∧
  s1.packet_sizes ≠ [] ∧ s2.packet_sizes ≠ []

/-- Ordering used on sessions by every sorting site of the tracer. -/
def startLe (a b : SessionInfo) : Prop := a.start_time ≤ b.start_time

/-- Two sessions forming a direct-proxy pair with equal fingerprints. -/
def c2A : SessionInfo :=
  { session_id := "1", src_ip := "a", src_port := 10, dst_ip := "b", dst_port := 80,
    payload_fingerprint := "fp" }

def c2B : SessionInfo :=
  { session_id := "2", src_ip := "b", src_port := 10, dst_ip := "c", dst_port := 80,
    payload_fingerprint := "fp" }

/-! ### Supporting lemmas -/

theorem sizeTol_symm (x y : Int) : sizeTol x y ↔ sizeTol y x := by
  unfold sizeTol
  rw [abs_sub_comm, max_comm (x : ℚ) (y : ℚ)]

theorem countP_sizeTol_swap (l1 l2 : List Int) :
    (l2.zip l1).countP (fun p => sizeTol p.1 p.2) =
      (l1.zip l2).countP (fun p => sizeTol p.1 p.2) := by
  rw [← List.zip_swap l1 l2, List.countP_map]
  apply List.countP_congr
  intro a _
  simp only [Function.comp, Prod.fst_swap, Prod.snd_swap]
  rw [decide_eq_decide.mpr (sizeTol_symm a.2 a.1)]

theorem countP_zip_take_le (a b : List Int) (n : Nat) :
    ((a.take n).zip (b.take n)).countP (fun p => sizeTol p.1 p.2) ≤ n := by
  calc ((a.take n).zip (b.take n)).countP (fun p => sizeTol p.1 p.2)
      ≤ ((a.take n).zip (b.take n)).length := List.countP_le_length _
    _ = min (a.take n).length (b.take n).length := List.length_zip _ _
    _ ≤ (a.take n).length := Nat.min_le_left _ _
    _ ≤ n := by rw [List.length_take]; exact Nat.min_le_left _ _

/-! ### C10 -/

/-- C10: `_size_sequence_similarity` is symmetric in its two arguments, and its
result always lies in the interval [0, 1]. -/
theorem C10_size_similarity_symmetric_and_bounded (a b : List Int) :
    sizeSequenceSimilarity a b = sizeSequenceSimilarity b a ∧
    0 ≤ sizeSequenceSimilarity a b ∧ sizeSequenceSimilarity a b ≤ 1 := by
  have hn3 : ∀ x y : List Int, ¬ min (min x.length y.length) 10 < 3 →
      (0 : ℚ) < ((min (min x.length y.length) 10 : ℕ) : ℚ) := by
    intro x y h
    have : 3 ≤ min (min x.length y.length) 10 := Nat.le_of_not_lt h
    exact_mod_cast Nat.lt_of_lt_of_le (by norm_num) this
  have hcle : ∀ x y : List Int,
      (((x.take (min (min x.length y.length) 10)).zip
          (y.take (min (min x.length y.length) 10))).countP (fun p => sizeTol p.1 p.2) : ℚ)
        ≤ ((min (min x.length y.length) 10 : ℕ) : ℚ) := by
    intro x y
    exact_mod_cast countP_zip_take_le x y _
  refine ⟨?_, ?_, ?_⟩
  · unfold sizeSequenceSimilarity
    by_cases hab : a = [] ∨ b = []
    · rw [if_pos hab, if_pos (Or.symm hab)]
    · rw [if_neg hab, if_neg (fun h => hab (Or.symm h))]
      have hmin : min (min b.length a.length) 10 = min (min a.length b.length) 10 := by
        rw [Nat.min_comm b.length a.length]
      simp only [hmin]
      by_cases h3 : min (min a.length b.length) 10 < 3
      · rw [if_pos h3, if_pos h3]
      · rw [if_neg h3, if_neg h3,
          countP_sizeTol_swap (a.take (min (min a.length b.length) 10))
            (b.take (min (min a.length b.length) 10))]
  · unfold sizeSequenceSimilarity
    by_cases hab : a = [] ∨ b = []
    · rw [if_pos hab]
    · rw [if_neg hab]
      dsimp only
      by_cases h3 : min (min a.length b.length) 10 < 3
      · rw [if_pos h3]
      · rw [if_neg h3]
        positivity
  · unfold sizeSequenceSimilarity
    by_cases hab : a = [] ∨ b = []
    · rw [if_pos hab]; exact zero_le_one
    · rw [if_neg hab]
      dsimp only
      by_cases h3 : min (min a.length b.length) 10 < 3
      · rw [if_pos h3]; exact zero_le_one
      · rw [if_neg h3, div_le_one (hn3 a b h3)]
        exact hcle a b

theorem alookup_mem {κ α : Type} [DecidableEq κ] {k : κ} {v : α} :
    ∀ {l : List (κ × α)}, alookup k l = some v → (k, v) ∈ l := by
  intro l
  induction l with
  | nil => intro h; simp [alookup] at h
  | cons hd tl ih =>
    intro h
    rw [alookup] at h
    by_cases hk : hd.1 = k
    · rw [if_pos hk] at h
      cases h
      have he : (k, hd.2) = hd := Prod.ext hk.symm rfl
      rw [he]
      exact List.mem_cons_self _ _
    · rw [if_neg hk] at h
      exact List.mem_cons_of_mem _ (ih h)

theorem mem_aset {κ α : Type} [DecidableEq κ] {k : κ} {v : α} {e : κ × α} :
    ∀ {l : List (κ × α)}, e ∈ aset k v l → e = (k, v) ∨ e ∈ l := by
  intro l
  induction l with
  | nil => intro h; simp [aset] at h; left; exact h
  | cons hd tl ih =>
    intro h
    rw [aset] at h
    by_cases hk : hd.1 = k
    · rw [if_pos hk] at h
      rcases List.mem_cons.mp h with h1 | h1
      · left; exact h1
      · right; exact List.mem_cons_of_mem _ h1
    · rw [if_neg hk] at h
      rcases List.mem_cons.mp h with h1 | h1
      · right; rw [h1]; exact List.mem_cons_self _ _
      · rcases ih h1 with h2 | h2
        · left; exact h2
        · right; exact List.mem_cons_of_mem _ h2

/-! ### C9 -/

/-- The flag translation as the claim words it: parse the value as an integer
(base 16 when `0x`-prefixed, else base 10); on success, the comma-separated
mnemonics in the fixed order SYN, ACK, PSH, FIN, RST, URG for the set bits
(masks 0x02, 0x10, 0x08, 0x01, 0x04, 0x20), `---` when no listed bit is set;
on failure, the input unchanged, or `---` for the empty input. -/
def specTcpFlags (s : String) : String :=
  match (if s.startsWith "0x" then pyParseHex s else pyParseInt s) with
  | none => if s = "" then "---" else s
  | some n =>
    let names := [(1, "SYN"), (4, "ACK"), (3, "PSH"), (0, "FIN"), (2, "RST"), (5, "URG")].filterMap
      (fun bm => if pyBitSet n bm.1 then some bm.2 else none)
    if names = [] then "---" else String.intercalate "," names

/-- C9: `_parse_tcp_flags` is total (it is a total function of its input by
construction) and behaves exactly as described: integer inputs map to the
ordered mnemonics of their set bits with `---` for none, unparseable non-empty
inputs are returned unchanged, and the empty input yields `---`. -/
theorem C9_parse_tcp_flags_characterization (s : String) : parseTcpFlags s = specTcpFlags s := by
  unfold parseTcpFlags specTcpFlags
  cases hp : (if s.startsWith "0x" then pyParseHex s else pyParseInt s) with
  | none => rfl
  | some n =>
    have htbl :
        ((if pyBitSet n 1 then ["SYN"] else []) ++
         (if pyBitSet n 4 then ["ACK"] else []) ++
         (if pyBitSet n 3 then ["PSH"] else []) ++
         (if pyBitSet n 0 then ["FIN"] else []) ++
         (if pyBitSet n 2 then ["RST"] else []) ++
         (if pyBitSet n 5 then ["URG"] else [])) =
        [(1, "SYN"), (4, "ACK"), (3, "PSH"), (0, "FIN"), (2, "RST"), (5, "URG")].filterMap
          (fun bm => if pyBitSet n bm.1 then some bm.2 else none) := by
      by_cases b1 : pyBitSet n 1 <;> by_cases b2 : pyBitSet n 4 <;>
        by_cases b3 : pyBitSet n 3 <;> by_cases b4 : pyBitSet n 0 <;>
        by_cases b5 : pyBitSet n 2 <;> by_cases b6 : pyBitSet n 5 <;>
        simp [b1, b2, b3, b4, b5, b6, List.filterMap]
    simp only [htbl]

/-! ### C8 -/

/-- A single TCP row whose payload is 4002 hex characters long. -/
def c8Row : ARow := { stream := some "0", payload := some (String.mk (List.replicate 4002 'a')) }

/-- A small row used to witness the amended bound. -/
def c8wRow : ARow := { stream := some "1", payload := some "ab" }

/-- The aggregate produced for `c8Row` (kept in unreduced form so that the
equality with the pipeline output is a cheap definitional check). -/
def c8Expected : ASess :=
  { src := "?", dst := "?", sport := "0", dport := "0",
    packet_count := 0 + 1, bytes := 0 + 0,
    start_time := some 0, end_time := some 0,
    payload_hex := "" ++ String.mk (removeColons (String.mk (List.replicate 4002 'a')).data),
    protocols := [], summary := "" }

/-- Length of the colon-stripped payload a row would append (0 for no payload). -/
def chunkLen (r : ARow) : Nat := (r.payload.map (fun p => (removeColons p.data).length)).getD 0

theorem aSetEndpoints_payload (r : ARow) (s : ASess) :
    (aSetEndpoints r s).payload_hex = s.payload_hex := by
  unfold aSetEndpoints; split <;> rfl

theorem aStartUpd_payload (ts : ℚ) (s : ASess) :
    (aStartUpd ts s).payload_hex = s.payload_hex := by
  unfold aStartUpd
  rcases s.start_time with _ | st0
  · rfl
  · dsimp only; split <;> rfl

theorem aEndUpd_payload (ts : ℚ) (s : ASess) :
    (aEndUpd ts s).payload_hex = s.payload_hex := by
  unfold aEndUpd
  rcases s.end_time with _ | e0
  · rfl
  · dsimp only; split <;> rfl

theorem aSetTiming_payload (r : ARow) (s : ASess) :
    (aSetTiming r s).payload_hex = s.payload_hex := by
  unfold aSetTiming
  rcases parseFloatField r.timeRel with _ | ts
  · rfl
  · dsimp only
    rw [aEndUpd_payload, aStartUpd_payload]

theorem aSetProto_payload (r : ARow) (s : ASess) :
    (aSetProto r s).payload_hex = s.payload_hex := by
  unfold aSetProto
  rcases r.proto with _ | pr
  · rfl
  · dsimp only; split <;> rfl

theorem aSetSummary_payload (r : ARow) (s : ASess) :
    (aSetSummary r s).payload_hex = s.payload_hex := by
  unfold aSetSummary
  rcases r.colInfo with _ | i
  · rfl
  · dsimp only; split <;> rfl

theorem aSetPayload_bound {L : Nat} (r : ARow) (s : ASess)
    (hr : chunkLen r ≤ L) (hs : s.payload_hex.length < 4000 + L) :
    (aSetPayload r s).payload_hex.length < 4000 + L := by
  unfold aSetPayload
  rcases hp : r.payload with _ | p
  · exact hs
  · dsimp only
    split_ifs with h
    · have hlen : (removeColons p.data).length ≤ L := by
        unfold chunkLen at hr; rw [hp] at hr; exact hr
      have : (s.payload_hex ++ String.mk (removeColons p.data)).length =
          s.payload_hex.length + (removeColons p.data).length := by
        simp [String.length_append]
      simp only [this]
      obtain ⟨hp1, hp2⟩ := h
      omega
    · exact hs

theorem aStep_payload_inv {L : Nat} (st : List (String × ASess)) (r : ARow)
    (hr : chunkLen r ≤ L)
    (hst : ∀ e ∈ st, e.2.payload_hex.length < 4000 + L) :
    ∀ st', aStep st r = some st' → ∀ e ∈ st', e.2.payload_hex.length < 4000 + L := by
  intro st' hstep e he
  unfold aStep at hstep
  rcases hs : r.stream with _ | sid
  · rw [hs] at hstep; cases hstep; exact hst e he
  · rw [hs] at hstep
    dsimp only at hstep
    by_cases hsid : sid = ""
    · rw [if_pos hsid] at hstep; cases hstep; exact hst e he
    · rw [if_neg hsid] at hstep
      rcases hfl : parseIntField r.frameLen with _ | pkt_len
      · rw [hfl] at hstep; cases hstep
      · rw [hfl] at hstep
        cases hstep
        have hst1 : ∀ e ∈ (if (alookup sid st).isSome then st else st ++ [(sid, ({} : ASess))]),
            e.2.payload_hex.length < 4000 + L := by
          intro e' he'
          split at he'
          · exact hst e' he'
          · rcases List.mem_append.mp he' with h1 | h1
            · exact hst e' h1
            · rw [List.mem_singleton.mp h1]
              have h0 : ((sid, ({} : ASess)).2.payload_hex.length) = 0 := rfl
              omega
        have hs0 : ((alookup sid (if (alookup sid st).isSome then st
            else st ++ [(sid, ({} : ASess))])).getD ({} : ASess)).payload_hex.length < 4000 + L := by
          rcases hlk : alookup sid (if (alookup sid st).isSome then st
            else st ++ [(sid, ({} : ASess))]) with _ | v
          · have h0 : ((none : Option ASess).getD ({} : ASess)).payload_hex.length = 0 := rfl
            omega
          · simpa using hst1 (sid, v) (alookup_mem hlk)
        rcases mem_aset he with h1 | h1
        · rw [h1]
          dsimp only
          rw [aSetSummary_payload, aSetProto_payload]
          apply aSetPayload_bound _ _ hr
          rw [aSetTiming_payload]
          dsimp only
          rw [aSetEndpoints_payload]
          exact hs0
        · exact hst1 e h1

theorem aRun_payload_inv {L : Nat} (rows : List ARow) (st : List (String × ASess))
    (hrows : ∀ r ∈ rows, chunkLen r ≤ L)
    (hst : ∀ e ∈ st, e.2.payload_hex.length < 4000 + L) :
    ∀ res, aRun st rows = some res → ∀ e ∈ res, e.2.payload_hex.length < 4000 + L := by
  induction rows generalizing st with
  | nil => intro res h; cases h; exact hst
  | cons r tl ih =>
    intro res h
    rw [aRun] at h
    rcases hstep : aStep st r with _ | st'
    · rw [hstep] at h; cases h
    · rw [hstep] at h
      exact ih st' (fun x hx => hrows x (List.mem_cons_of_mem _ hx))
        (aStep_payload_inv st r (hrows r (List.mem_cons_self _ _)) hst st' hstep) res h

/-- C8 counterexample: a single row carrying a 4002-character payload drives the
accumulated `payload_hex` of its stream to 4002 characters, exceeding the
claimed 4000 bound. -/
theorem C8_counterexample :
    ((analyzeTcpSessionsAgg [c8Row]).getD []).map (fun e => e.2.payload_hex.length) = [4002] ∧
      4000 < 4002 := by
  have hbase : analyzeTcpSessionsAgg [c8Row] = some [("0", c8Expected)] := rfl
  have hfilter : removeColons (String.mk (List.replicate 4002 'a')).data =
      List.replicate 4002 'a' := by
    unfold removeColons
    apply List.filter_eq_self.mpr
    intro a ha
    rw [List.eq_of_mem_replicate ha]
    decide
  have hmk : ∀ l : List Char, (String.mk l).length = l.length := fun _ => rfl
  constructor
  · rw [hbase]
    simp only [Option.getD_some, List.map_cons, List.map_nil]
    dsimp only [c8Expected]
    rw [hfilter, String.length_append, hmk (List.replicate 4002 'a'), List.length_replicate]
    decide
  · decide

/-- C8 amended: appends to `payload_hex` happen only while its length is below
4000 characters, so for inputs whose per-row colon-stripped payloads are at
most `L` characters the accumulated string stays strictly below `4000 + L`
characters; the unqualified 4000 bound of the claim does not hold. -/
theorem C8_payload_bound (rows : List ARow) (L : Nat)
    (hrows : ∀ r ∈ rows, chunkLen r ≤ L) :
    ∀ res, analyzeTcpSessionsAgg rows = some res →
      ∀ e ∈ res, e.2.payload_hex.length < 4000 + L := by
  intro res h
  exact aRun_payload_inv rows [] hrows (by intro e he; cases he) res h

/-- C8 witness: the amended bound at the aggregate produced from a concrete
one-row input. -/
theorem C8_payload_bound_witness :
    (((analyzeTcpSessionsAgg [c8wRow]).getD []).headD ("", ({} : ASess))).2.payload_hex.length <
      4000 + 2 :=
  C8_payload_bound [c8wRow] 2 (by decide) ((analyzeTcpSessionsAgg [c8wRow]).getD [])
    (by rfl) (((analyzeTcpSessionsAgg [c8wRow]).getD []).headD ("", ({} : ASess)))
    (by decide)

/-! ### C1 and C6: session extraction -/

theorem cnts_eq_iff {a b : SessionInfo} : cnts a = cnts b ↔
    (a.packet_count = b.packet_count ∧ a.forward_packets = b.forward_packets ∧
     a.backward_packets = b.backward_packets ∧ a.byte_count = b.byte_count ∧
     a.forward_bytes = b.forward_bytes ∧ a.backward_bytes = b.backward_bytes) := by
  simp [cnts, Prod.ext_iff]

theorem sessWindow_cnts (ts : ℚ) (s : SessionInfo) : cnts (sessWindow ts s) = cnts s := by
  unfold sessWindow
  split <;> (dsimp only; split <;> rfl)

theorem fwdWindow_cnts (ts : ℚ) (s : SessionInfo) : cnts (fwdWindow ts s) = cnts s := by
  unfold fwdWindow
  split <;> (dsimp only; split <;> rfl)

theorem bwdWindow_cnts (ts : ℚ) (s : SessionInfo) : cnts (bwdWindow ts s) = cnts s := by
  unfold bwdWindow
  split <;> (dsimp only; split <;> rfl)

theorem updateFingerprint_cnts (md5f : List Nat → String) (r : Row) (s : SessionInfo) :
    cnts (updateFingerprint md5f r s) = cnts s := by
  unfold updateFingerprint
  split
  · rcases r.payload with _ | p
    · rfl
    · dsimp only
      split
      · rfl
      · rcases hexPairs (removeColons p.data) with _ | bs
        · rfl
        · dsimp only
          split <;> rfl
  · rfl

theorem updateTiming_flowInv (r : Row) (fl : Int) (ts : ℚ) (s : SessionInfo)
    (h1 : s.packet_count = s.forward_packets + s.backward_packets + 1)
    (h2 : s.byte_count = s.forward_bytes + s.backward_bytes + fl) :
    flowInv (updateTiming r fl ts s) := by
  obtain ⟨b1, b2, b3, b4, b5, b6⟩ := cnts_eq_iff.mp (sessWindow_cnts ts s)
  unfold updateTiming
  dsimp only
  split
  · obtain ⟨a1, a2, a3, a4, a5, a6⟩ := cnts_eq_iff.mp (fwdWindow_cnts ts
      { sessWindow ts s with
        forward_packets := (sessWindow ts s).forward_packets + 1,
        forward_bytes := (sessWindow ts s).forward_bytes + fl })
    dsimp only at a1 a2 a3 a4 a5 a6
    exact ⟨by omega, by omega⟩
  · obtain ⟨a1, a2, a3, a4, a5, a6⟩ := cnts_eq_iff.mp (bwdWindow_cnts ts
      { sessWindow ts s with
        backward_packets := (sessWindow ts s).backward_packets + 1,
        backward_bytes := (sessWindow ts s).backward_bytes + fl })
    dsimp only at a1 a2 a3 a4 a5 a6
    exact ⟨by omega, by omega⟩

theorem flowInv_of_cnts {a b : SessionInfo} (h : cnts a = cnts b) (hb : flowInv b) :
    flowInv a := by
  obtain ⟨h1, h2, h3, h4, h5, h6⟩ := cnts_eq_iff.mp h
  obtain ⟨hb1, hb2⟩ := hb
  exact ⟨by omega, by omega⟩

theorem pushSize_cnts (fl : Int) (s : SessionInfo) : cnts (pushSize fl s) = cnts s := by
  unfold pushSize
  split <;> rfl

/-- The composite per-row update applied to an existing session restores the
flow invariant, provided `frame.time_epoch` converts. -/
theorem rowUpdates_flowInv (md5f : List Nat → String) (r : Row) (fl : Int) (ts : ℚ)
    (s0 : SessionInfo) (hts : parseFloatField r.timeEpoch = some ts) (h : flowInv s0) :
    flowInv (updateFingerprint md5f r
      (match parseFloatField r.timeEpoch with
        | none => pushSize fl (addFrameLen fl (bumpPacketCount s0))
        | some ts => updateTiming r fl ts (pushSize fl (addFrameLen fl (bumpPacketCount s0))))) := by
  rw [hts]
  apply flowInv_of_cnts (updateFingerprint_cnts md5f r _)
  obtain ⟨p1, p2, p3, p4, p5, p6⟩ :=
    cnts_eq_iff.mp (pushSize_cnts fl (addFrameLen fl (bumpPacketCount s0)))
  have e1 : (addFrameLen fl (bumpPacketCount s0)).packet_count = s0.packet_count + 1 := rfl
  have e2 : (addFrameLen fl (bumpPacketCount s0)).forward_packets = s0.forward_packets := rfl
  have e3 : (addFrameLen fl (bumpPacketCount s0)).backward_packets = s0.backward_packets := rfl
  have e4 : (addFrameLen fl (bumpPacketCount s0)).byte_count = s0.byte_count + fl := rfl
  have e5 : (addFrameLen fl (bumpPacketCount s0)).forward_bytes = s0.forward_bytes := rfl
  have e6 : (addFrameLen fl (bumpPacketCount s0)).backward_bytes = s0.backward_bytes := rfl
  obtain ⟨h1, h2⟩ := h
  exact updateTiming_flowInv r fl ts _ (by omega) (by omega)

theorem flowInv_default : flowInv (default : SessionInfo) := ⟨rfl, rfl⟩

theorem stepRow_flowInv (md5f : List Nat → String) (fs : String) (st : SessState) (r : Row)
    (hr : rowWF r = true) (hst : ∀ e ∈ st, flowInv e.2) :
    (stepRow md5f fs st r).2 = false ∧ ∀ e ∈ (stepRow md5f fs st r).1, flowInv e.2 := by
  unfold stepRow
  rcases hstream : r.stream with _ | sid
  · exact ⟨rfl, hst⟩
  · dsimp only
    unfold rowWF at hr
    rw [hstream] at hr
    by_cases hsid : sid = ""
    · rw [if_pos hsid]; exact ⟨rfl, hst⟩
    · rw [if_neg hsid]
      simp only [hsid, decide_eq_true_eq, Bool.or_eq_true, decide_eq_true_eq, false_or] at hr
      obtain ⟨hsp', hdp', hfl', hts'⟩ := hr
      obtain ⟨fl, hfl⟩ := Option.isSome_iff_exists.mp hfl'
      obtain ⟨ts, hts⟩ := Option.isSome_iff_exists.mp hts'
      have hbody : ∀ (st1 : SessState) (sF : SessionInfo), (∀ e ∈ st1, flowInv e.2) →
          flowInv sF →
          ((aset sid sF st1, false) : SessState × Bool).2 = false ∧
            ∀ e ∈ ((aset sid sF st1, false) : SessState × Bool).1, flowInv e.2 := by
        intro st1 sF hst1 hsF
        refine ⟨rfl, ?_⟩
        intro e he
        rcases mem_aset he with h | h
        · rw [h]; exact hsF
        · exact hst1 e h
      have hs0 : ∀ st1 : SessState, (∀ e ∈ st1, flowInv e.2) →
          flowInv ((alookup sid st1).getD default) := by
        intro st1 hst1
        rcases hlk : alookup sid st1 with _ | v
        · exact flowInv_default
        · simpa using hst1 (sid, v) (alookup_mem hlk)
      have hstApp : ∀ x : String × SessionInfo, flowInv x.2 →
          ∀ e ∈ st ++ [x], flowInv e.2 := by
        intro x hx e he
        rcases List.mem_append.mp he with h | h
        · exact hst e h
        · rw [List.mem_singleton.mp h]; exact hx
      by_cases hlk : (alookup sid st).isSome
      · rw [if_pos hlk]
        dsimp only
        rw [hfl]
        exact hbody st _ hst (rowUpdates_flowInv md5f r fl ts _ hts (hs0 st hst))
      · rw [if_neg hlk]
        obtain ⟨sp, hsp⟩ := Option.isSome_iff_exists.mp hsp'
        obtain ⟨dp, hdp⟩ := Option.isSome_iff_exists.mp hdp'
        rw [hsp, hdp]
        dsimp only
        rw [hfl]
        exact hbody _ _ (hstApp _ ⟨rfl, rfl⟩)
          (rowUpdates_flowInv md5f r fl ts _ hts (hs0 _ (hstApp _ ⟨rfl, rfl⟩)))

theorem stepRow_noAbort (md5f : List Nat → String) (fs : String) (st : SessState) (r : Row)
    (hr : intFieldsOK r = true) : (stepRow md5f fs st r).2 = false := by
  unfold stepRow
  rcases hstream : r.stream with _ | sid
  · rfl
  · dsimp only
    unfold intFieldsOK at hr
    rw [hstream] at hr
    by_cases hsid : sid = ""
    · rw [if_pos hsid]
    · rw [if_neg hsid]
      simp only [hsid, decide_eq_true_eq, Bool.or_eq_true, decide_eq_true_eq, false_or] at hr
      obtain ⟨hsp', hdp', hfl'⟩ := hr
      obtain ⟨fl, hfl⟩ := Option.isSome_iff_exists.mp hfl'
      by_cases hlk : (alookup sid st).isSome
      · rw [if_pos hlk]
        dsimp only
        rw [hfl]
      · rw [if_neg hlk]
        obtain ⟨sp, hsp⟩ := Option.isSome_iff_exists.mp hsp'
        obtain ⟨dp, hdp⟩ := Option.isSome_iff_exists.mp hdp'
        rw [hsp, hdp]
        dsimp only
        rw [hfl]

theorem runRows_flowInv (md5f : List Nat → String) (fs : String) (rows : List Row)
    (st : SessState) (h : ∀ r ∈ rows, rowWF r = true) (hst : ∀ e ∈ st, flowInv e.2) :
    (runRows md5f fs st rows).2 = false ∧ ∀ e ∈ (runRows md5f fs st rows).1, flowInv e.2 := by
  induction rows generalizing st with
  | nil => exact ⟨rfl, hst⟩
  | cons r tl ih =>
    have hstep := stepRow_flowInv md5f fs st r (h r (List.mem_cons_self _ _)) hst
    rw [runRows]
    rcases hs : stepRow md5f fs st r with ⟨st', b⟩
    rw [hs] at hstep
    cases b
    · exact ih st' (fun x hx => h x (List.mem_cons_of_mem _ hx)) hstep.2
    · exact absurd hstep.1 (by simp)

theorem hdrFold_cnts (o : String → String → Option String) (p : String) (hs : List String) :
    ∀ s : SessionInfo,
      cnts (hs.foldl (fun acc h => match o h p with
        | some v => { acc with http_headers := aset h v acc.http_headers }
        | none => acc) s) = cnts s := by
  induction hs with
  | nil => intro s; rfl
  | cons h tl ih =>
    intro s
    rw [List.foldl_cons, ih]
    rcases o h p with _ | v
    · rfl
    · rfl

theorem xffUpd_cnts (r : HttpRow) (s : SessionInfo) : cnts (xffUpd r s) = cnts s := by
  unfold xffUpd
  rcases r.xff with _ | v
  · rfl
  · dsimp only
    split <;> rfl

theorem payloadHdrUpd_cnts (o : String → String → Option String) (r : HttpRow)
    (s : SessionInfo) : cnts (payloadHdrUpd o r s) = cnts s := by
  unfold payloadHdrUpd
  rcases r.payload with _ | p
  · rfl
  · dsimp only
    split
    · rfl
    · exact hdrFold_cnts o p correlationHeaders s

theorem httpStep_flowInv (o : String → String → Option String) (st : SessState) (r : HttpRow)
    (hst : ∀ e ∈ st, flowInv e.2) : ∀ e ∈ httpStep o st r, flowInv e.2 := by
  intro e he
  unfold httpStep at he
  rcases hs : r.stream with _ | sid
  · rw [hs] at he; exact hst e he
  · rw [hs] at he
    dsimp only at he
    by_cases hsid : sid = ""
    · rw [if_pos hsid] at he; exact hst e he
    · rw [if_neg hsid] at he
      rcases hlk : alookup sid st with _ | s0
      · rw [hlk] at he; exact hst e he
      · rw [hlk] at he
        dsimp only at he
        rcases mem_aset he with h | h
        · rw [h]
          apply flowInv_of_cnts ?_ (by simpa using hst (sid, s0) (alookup_mem hlk))
          rw [payloadHdrUpd_cnts, xffUpd_cnts]
        · exact hst e h

theorem extractHttpHeaders_flowInv (o : String → String → Option String)
    (httpRows : List HttpRow) (st : SessState) (hst : ∀ e ∈ st, flowInv e.2) :
    ∀ e ∈ extractHttpHeaders o httpRows st, flowInv e.2 := by
  unfold extractHttpHeaders
  induction httpRows generalizing st with
  | nil => exact hst
  | cons r tl ih =>
    rw [List.foldl_cons]
    exact ih (httpStep o st r) (httpStep_flowInv o st r hst)

/-- C1 counterexample: a row whose `frame.time_epoch` is not a float still
increments `packet_count` and `byte_count` but skips both directional
counters, so the produced session has `packet_count = 1 ≠ 0 =
forward_packets + backward_packets` and `byte_count = 100 ≠ 0`. -/
theorem C1_counterexample :
    (extractSessions (fun _ => "h") (fun _ _ => none) "f" [c1Row] []).map
      (fun s => (s.packet_count, s.forward_packets + s.backward_packets,
                 s.byte_count, s.forward_bytes + s.backward_bytes)) =
      [(1, 0, 100, 0)] := by
  decide

/-- C1 amended: for rows all of whose converted fields parse (in particular
`frame.time_epoch` parses as a float), every session produced by
`_extract_sessions` satisfies `packet_count = forward_packets +
backward_packets` and `byte_count = forward_bytes + backward_bytes`; a row
with an unparseable `frame.time_epoch` (or an aborting integer field) breaks
the invariant. -/
theorem C1_flow_invariant (md5f : List Nat → String)
    (hdrOracle : String → String → Option String) (fs : String) (rows : List Row)
    (httpRows : List HttpRow) (h : ∀ r ∈ rows, rowWF r = true) :
    ∀ s ∈ extractSessions md5f hdrOracle fs rows httpRows,
      s.packet_count = s.forward_packets + s.backward_packets ∧
      s.byte_count = s.forward_bytes + s.backward_bytes := by
  intro s hs
  unfold extractSessions at hs
  obtain ⟨e, he, rfl⟩ := List.mem_map.mp hs
  exact extractHttpHeaders_flowInv hdrOracle httpRows _
    (runRows_flowInv md5f fs rows [] h (by intro e' he'; cases he')).2 e he

/-- C1 witness: the amended invariant at the session produced from a concrete
well-formed input. -/
theorem C1_flow_invariant_witness :
    ((extractSessions (fun _ => "h") (fun _ _ => none) "f" [c1wRow] []).headD
        default).packet_count =
      ((extractSessions (fun _ => "h") (fun _ _ => none) "f" [c1wRow] []).headD
        default).forward_packets +
      ((extractSessions (fun _ => "h") (fun _ _ => none) "f" [c1wRow] []).headD
        default).backward_packets ∧
    ((extractSessions (fun _ => "h") (fun _ _ => none) "f" [c1wRow] []).headD
        default).byte_count =
      ((extractSessions (fun _ => "h") (fun _ _ => none) "f" [c1wRow] []).headD
        default).forward_bytes +
      ((extractSessions (fun _ => "h") (fun _ _ => none) "f" [c1wRow] []).headD
        default).backward_bytes :=
  C1_flow_invariant (fun _ => "h") (fun _ _ => none) "f" [c1wRow] [] (by decide)
    ((extractSessions (fun _ => "h") (fun _ _ => none) "f" [c1wRow] []).headD default)
    (by decide)

/-- C6 counterexample: after a well-formed row for stream 1, a row whose
`frame.len` is not an integer aborts the whole loop, so the following
well-formed row for stream 2 is never processed and its session is missing
from the output, contradicting the claim that such a row never aborts
processing of subsequent rows. -/
theorem C6_counterexample :
    (extractSessions (fun _ => "h") (fun _ _ => none) "f" [c1wRow, c6BadRow, c6GoodRow] []).map
      (·.session_id) = ["1"] ∧ rowWF c6GoodRow = true := by
  constructor
  · decide
  · decide

/-- C6 amended: a row-level decoding failure of `frame.time_epoch` or of the
payload hex only skips that field's update and never aborts the loop (first
conjunct: when the integer fields of every row parse, the loop never aborts,
whatever the timestamps and payloads are); but a non-integer numeric field
(`tcp.srcport`/`tcp.dstport` at creation, or `frame.len`) aborts the loop:
rows after the offending row are not processed, and the sessions accumulated
so far are returned (second conjunct). -/
theorem C6_error_containment :
    (∀ (md5f : List Nat → String) (fs : String) (st : SessState) (rows : List Row),
      (∀ r ∈ rows, intFieldsOK r = true) → (runRows md5f fs st rows).2 = false) ∧
    (∀ (md5f : List Nat → String) (fs : String) (st0 : SessState) (pre : List Row) (r : Row)
      (post : List Row),
      (runRows md5f fs st0 pre).2 = false →
      (stepRow md5f fs (runRows md5f fs st0 pre).1 r).2 = true →
      runRows md5f fs st0 (pre ++ r :: post) =
        ((stepRow md5f fs (runRows md5f fs st0 pre).1 r).1, true)) := by
  constructor
  · intro md5f fs st rows h
    induction rows generalizing st with
    | nil => rfl
    | cons r tl ih =>
      rw [runRows]
      rcases hs : stepRow md5f fs st r with ⟨st', b⟩
      have hb := stepRow_noAbort md5f fs st r (h r (List.mem_cons_self _ _))
      rw [hs] at hb
      cases b
      · exact ih st' (fun x hx => h x (List.mem_cons_of_mem _ hx))
      · exact absurd hb (by simp)
  · intro md5f fs st0 pre r post
    induction pre generalizing st0 with
    | nil =>
      intro _ habort
      simp only [runRows, List.nil_append] at habort ⊢
      rcases hs : stepRow md5f fs st0 r with ⟨st', b⟩
      rw [hs] at habort
      try rw [hs]
      cases b
      · exact absurd habort (by simp)
      · rfl
    | cons p tl ih =>
      intro hok habort
      simp only [runRows, List.cons_append] at hok habort ⊢
      rcases hs : stepRow md5f fs st0 p with ⟨st', b⟩
      rw [hs] at hok
      rw [hs] at habort
      try rw [hs]
      cases b
      · dsimp only at hok habort ⊢
        exact ih st' hok habort
      · exact absurd hok (by simp)

/-- C6 witness: both conjuncts of the amended claim at concrete inputs: the
well-formed row never aborts, and the loop on `[good, bad, good]` stops at the
bad row with the state built so far. -/
theorem C6_error_containment_witness :
    (runRows (fun _ => "h") "f" [] [c1wRow]).2 = false ∧
    runRows (fun _ => "h") "f" [] ([c1wRow] ++ c6BadRow :: [c6GoodRow]) =
      ((stepRow (fun _ => "h") "f" (runRows (fun _ => "h") "f" [] [c1wRow]).1 c6BadRow).1,
        true) :=
  ⟨C6_error_containment.1 (fun _ => "h") "f" [] [c1wRow] (by decide),
   C6_error_containment.2 (fun _ => "h") "f" [] [c1wRow] c6BadRow [c6GoodRow]
     (by decide) (by decide)⟩

/-! ### C5 -/

theorem zipTake_eq_rangeMap (a b : List Int) (n : Nat) (ha : n ≤ a.length)
    (hb : n ≤ b.length) :
    (a.take n).zip (b.take n) = (List.range n).map (fun i => (a.getD i 0, b.getD i 0)) := by
  apply List.ext_getElem
  · simp only [List.length_zip, List.length_take, List.length_map, List.length_range]
    omega
  · intro i h1 h2
    have hia : i < a.length := by
      simp only [List.length_zip, List.length_take] at h1
      omega
    have hib : i < b.length := by
      simp only [List.length_zip, List.length_take] at h1
      omega
    simp only [List.getElem_zip, List.getElem_take, List.getElem_map, List.getElem_range]
    rw [List.getD_eq_getElem a 0 hia, List.getD_eq_getElem b 0 hib]

theorem sizeSequenceSimilarity_eq_spec (a b : List Int) :
    sizeSequenceSimilarity a b = specSimilarity a b := by
  unfold sizeSequenceSimilarity specSimilarity
  by_cases hab : a = [] ∨ b = []
  · rw [if_pos hab]
    dsimp only
    rcases hab with h | h <;> subst h <;> simp
  · rw [if_neg hab]
    dsimp only
    by_cases h3 : min (min a.length b.length) 10 < 3
    · rw [if_pos h3, if_pos h3]
    · rw [if_neg h3, if_neg h3]
      have ha : min (min a.length b.length) 10 ≤ a.length :=
        le_trans (Nat.min_le_left _ _) (Nat.min_le_left _ _)
      have hb : min (min a.length b.length) 10 ≤ b.length :=
        le_trans (Nat.min_le_left _ _) (Nat.min_le_right _ _)
      have hcnt : ((a.take (min (min a.length b.length) 10)).zip
            (b.take (min (min a.length b.length) 10))).countP (fun p => sizeTol p.1 p.2) =
          (List.range (min (min a.length b.length) 10)).countP
            (fun i => sizeTol (a.getD i 0) (b.getD i 0)) := by
        rw [zipTake_eq_rangeMap a b _ ha hb, List.countP_map]
        rfl
      rw [hcnt]

theorem timingEmit_mem (s1 s2 : SessionInfo) (m : MatchT) :
    m ∈ timingEmit s1 s2 ↔
      (¬(s2.start_time - s1.start_time < 0.001) ∧
       ¬(s1.src_ip = s2.src_ip ∧ s1.dst_ip = s2.dst_ip) ∧
       (s1.dst_ip = s2.src_ip ∨
        (s1.src_port = s2.src_port ∧ s1.dst_ip = s2.dst_ip ∧ s1.src_ip ≠ s2.src_ip) ∨
        (s1.src_port = s2.src_port ∧ s1.src_ip ≠ s2.src_ip ∧
          (s1.dst_ip = s2.dst_ip ∨ s1.dst_ip = s2.src_ip))) ∧
       s1.packet_sizes ≠ [] ∧ s2.packet_sizes ≠ [] ∧
       sizeSequenceSimilarity s1.packet_sizes s2.packet_sizes > 0.6 ∧
       m = (s1, s2, 0.5 + sizeSequenceSimilarity s1.packet_sizes s2.packet_sizes * 0.3)) := by
  unfold timingEmit
  split_ifs with h1 h2 h3 _hp4 _hp5 <;>
    simp_all <;> tauto

theorem timingInner_mem (s1 : SessionInfo) (tl : List SessionInfo) (m : MatchT)
    (hsort : tl.Pairwise startLe) :
    m ∈ timingInner s1 tl ↔
      ∃ mid post s2, tl = mid ++ s2 :: post ∧
        s2.start_time - s1.start_time ≤ TIME_WINDOW ∧ m ∈ timingEmit s1 s2 := by
  induction tl with
  | nil => simp [timingInner]
  | cons x tl' ih =>
    obtain ⟨hx, htl'⟩ := List.pairwise_cons.mp hsort
    rw [timingInner]
    by_cases hw : x.start_time - s1.start_time > TIME_WINDOW
    · rw [if_pos hw]
      simp only [List.not_mem_nil, false_iff]
      rintro ⟨mid, post, s2, hdec, hle, _⟩
      rcases mid with _ | ⟨y, mid'⟩
      · injection hdec with h1 _
        subst h1
        exact absurd hle (not_le.mpr hw)
      · injection hdec with h1 h2
        have hs2 : s2 ∈ tl' := by
          rw [h2]
          exact List.mem_append.mpr (Or.inr (List.mem_cons_self _ _))
        have hxs : x.start_time ≤ s2.start_time := hx s2 hs2
        have hcon : x.start_time - s1.start_time ≤ TIME_WINDOW :=
          le_trans (by linarith) hle
        exact absurd hcon (not_le.mpr hw)
    · rw [if_neg hw]
      constructor
      · intro hm
        rcases List.mem_append.mp hm with h | h
        · exact ⟨[], tl', x, rfl, not_lt.mp hw, h⟩
        · obtain ⟨mid, post, s2, hdec, hle, hemit⟩ := (ih htl').mp h
          exact ⟨x :: mid, post, s2, by rw [hdec, List.cons_append], hle, hemit⟩
      · rintro ⟨mid, post, s2, hdec, hle, hemit⟩
        rcases mid with _ | ⟨y, mid'⟩
        · injection hdec with h1 h2
          subst h1
          exact List.mem_append.mpr (Or.inl hemit)
        · injection hdec with h1 h2
          exact List.mem_append.mpr
            (Or.inr ((ih htl').mpr ⟨mid', post, s2, h2, hle, hemit⟩))

theorem timingScan_mem (l : List SessionInfo) (m : MatchT) (hsort : l.Pairwise startLe) :
    m ∈ timingScan l ↔
      ∃ pre rest s1, l = pre ++ s1 :: rest ∧ m ∈ timingInner s1 rest := by
  induction l with
  | nil =>
    simp only [timingScan, List.not_mem_nil, false_iff]
    rintro ⟨pre, rest, s1, hdec, _⟩
    exact absurd hdec (by simp)
  | cons x tl ih =>
    obtain ⟨_, htl⟩ := List.pairwise_cons.mp hsort
    rw [timingScan]
    constructor
    · intro hm
      rcases List.mem_append.mp hm with h | h
      · exact ⟨[], tl, x, rfl, h⟩
      · obtain ⟨pre, rest, s1, hdec, hin⟩ := (ih htl).mp h
        exact ⟨x :: pre, rest, s1, by rw [hdec, List.cons_append], hin⟩
    · rintro ⟨pre, rest, s1, hdec, hin⟩
      rcases pre with _ | ⟨y, pre'⟩
      · simp only [List.nil_append] at hdec
        injection hdec with h1 h2
        subst h1
        subst h2
        exact List.mem_append.mpr (Or.inl hin)
      · simp only [List.cons_append] at hdec
        injection hdec with h1 h2
        exact List.mem_append.mpr (Or.inr ((ih htl).mpr ⟨pre', rest, s1, h2, hin⟩))

theorem sortByStart_pairwise (l : List SessionInfo) :
    (sortByStart l).Pairwise startLe := by
  unfold sortByStart
  have h := @List.sorted_mergeSort SessionInfo
    (fun a b : SessionInfo => decide (a.start_time ≤ b.start_time))
    (fun a b c hab hbc => by
      simp only [decide_eq_true_eq] at *
      exact le_trans hab hbc)
    (fun a b => by
      simp only [Bool.or_eq_true, decide_eq_true_eq]
      exact le_total _ _) l
  exact h.imp (fun {a b} hab => by simpa [startLe] using hab)

/-- C5: the size-sequence similarity is computed exactly as specified
(first conjunct), and the timing+size matcher emits a candidate pair exactly
when, for an ordered pair of the time-sorted session list that passes the time
window, minimum separation, endpoint and proxy-geometry gates with non-empty
size lists, the similarity exceeds 0.6 — with confidence
`0.5 + 0.3 · similarity` (second conjunct). -/
theorem C5_timing_size_matcher :
    (∀ a b : List Int, sizeSequenceSimilarity a b = specSimilarity a b) ∧
    (∀ (sessions : List SessionInfo) (m : MatchT),
      m ∈ matchByTimingAndSize sessions ↔
        ∃ pre mid post s1 s2,
          sortByStart sessions = pre ++ s1 :: (mid ++ s2 :: post) ∧
          timingPairOK s1 s2 ∧
          specSimilarity s1.packet_sizes s2.packet_sizes > 0.6 ∧
          m = (s1, s2, 0.5 + 0.3 * specSimilarity s1.packet_sizes s2.packet_sizes)) := by
  refine ⟨sizeSequenceSimilarity_eq_spec, ?_⟩
  intro sessions m
  unfold matchByTimingAndSize
  rw [timingScan_mem _ _ (sortByStart_pairwise sessions)]
  constructor
  · rintro ⟨pre, rest, s1, hdec, hin⟩
    have hrest : rest.Pairwise startLe :=
      ((hdec ▸ sortByStart_pairwise sessions).sublist
        (List.sublist_append_right _ _)).sublist (List.sublist_cons_self _ _)
    obtain ⟨mid, post, s2, hdec2, hle, hemit⟩ := (timingInner_mem s1 rest m hrest).mp hin
    obtain ⟨g1, g2, g3, g4, g5, g6, hm⟩ := (timingEmit_mem s1 s2 m).mp hemit
    refine ⟨pre, mid, post, s1, s2, by rw [hdec, hdec2], ⟨hle, g1, g2, g3, g4, g5⟩, ?_, ?_⟩
    · rw [← sizeSequenceSimilarity_eq_spec]; exact g6
    · rw [hm, ← sizeSequenceSimilarity_eq_spec]
      ring_nf
  · rintro ⟨pre, mid, post, s1, s2, hdec, ⟨hw, g1, g2, g3, g4, g5⟩, hsim, hm⟩
    refine ⟨pre, mid ++ s2 :: post, s1, hdec, ?_⟩
    have hrest : (mid ++ s2 :: post).Pairwise startLe :=
      ((hdec ▸ sortByStart_pairwise sessions).sublist
        (List.sublist_append_right _ _)).sublist (List.sublist_cons_self _ _)
    refine (timingInner_mem s1 _ m hrest).mpr ⟨mid, post, s2, rfl, hw, ?_⟩
    refine (timingEmit_mem s1 s2 m).mpr ⟨g1, g2, g3, g4, g5, ?_, ?_⟩
    · rw [sizeSequenceSimilarity_eq_spec]; exact hsim
    · rw [hm, sizeSequenceSimilarity_eq_spec]
      ring_nf

/-! ### C2 -/

theorem classifyFP_eq (s1 s2 : SessionInfo) : codeClassifyFP s1 s2 = specClassifyFP s1 s2 := by
  unfold codeClassifyFP specClassifyFP
  have habs : |s1.start_time - s2.start_time| = |s2.start_time - s1.start_time| :=
    abs_sub_comm _ _
  have htw : TIME_WINDOW * 2 = (1 : ℚ) := by norm_num [TIME_WINDOW]
  rw [habs, htw]
  by_cases h1 : s1.src_ip = s2.src_ip ∧ s1.dst_ip = s2.dst_ip
  · rw [if_pos h1, if_pos h1]
  · rw [if_neg h1, if_neg h1]
    by_cases h2 : |s2.start_time - s1.start_time| > 1
    · rw [if_pos h2, if_pos h2]
    · rw [if_neg h2, if_neg h2]
      dsimp only
      by_cases hD : s1.dst_ip = s2.src_ip
      · rw [if_pos hD, if_pos hD]
      · rw [if_neg hD, if_neg hD]
        by_cases hE : s1.src_port = s2.src_port <;>
          by_cases hF : s1.src_ip = s2.src_ip <;>
          by_cases hB : s1.dst_ip = s2.dst_ip <;>
          simp [Xor', hE, hF, hB]

theorem pairScan_congr (cl cl' : SessionInfo → SessionInfo → Option ℚ)
    (h : ∀ a b, cl a b = cl' a b) (l : List SessionInfo) :
    pairScan cl l = pairScan cl' l := by
  induction l with
  | nil => rfl
  | cons s1 tl ih =>
    rw [pairScan, pairScan, ih]
    have hfn : (fun s2 => (cl s1 s2).map (fun c => (s1, s2, c))) =
        (fun s2 => (cl' s1 s2).map (fun c => (s1, s2, c))) := by
      funext s2
      rw [h s1 s2]
    rw [hfn]

theorem mem_apush {κ : Type} [DecidableEq κ] {k : κ} {v : SessionInfo}
    {gp : κ × List SessionInfo} :
    ∀ {l : List (κ × List SessionInfo)}, gp ∈ apush k v l →
      gp ∈ l ∨ (∃ vs, gp = (k, vs ++ [v]) ∧ (k, vs) ∈ l) ∨ gp = (k, [v]) := by
  intro l
  induction l with
  | nil =>
    intro h
    right; right
    simpa [apush] using h
  | cons hd tl ih =>
    intro h
    rw [apush] at h
    by_cases hk : hd.1 = k
    · rw [if_pos hk] at h
      rcases List.mem_cons.mp h with h1 | h1
      · right; left
        refine ⟨hd.2, h1, ?_⟩
        have : (k, hd.2) = hd := Prod.ext hk.symm rfl
        rw [this]
        exact List.mem_cons_self _ _
      · left; exact List.mem_cons_of_mem _ h1
    · rw [if_neg hk] at h
      rcases List.mem_cons.mp h with h1 | h1
      · left; rw [h1]; exact List.mem_cons_self _ _
      · rcases ih h1 with h2 | h2 | h2
        · left; exact List.mem_cons_of_mem _ h2
        · right; left
          obtain ⟨vs, hvs, hmem⟩ := h2
          exact ⟨vs, hvs, List.mem_cons_of_mem _ hmem⟩
        · right; right; exact h2

/-- Invariant of the fingerprint grouping: keys are non-empty fingerprints and
every member of a group carries exactly that fingerprint. -/
def GInv (acc : List (String × List SessionInfo)) : Prop :=
  ∀ gp ∈ acc, gp.1 ≠ "" ∧ ∀ s ∈ gp.2, s.payload_fingerprint = gp.1

theorem groupByFingerprint_inv (ss : List SessionInfo) : GInv (groupByFingerprint ss) := by
  unfold groupByFingerprint
  have main : ∀ (l : List SessionInfo) (acc), GInv acc →
      GInv (l.foldl (fun acc s =>
        if s.payload_fingerprint ≠ "" then apush s.payload_fingerprint s acc else acc) acc) := by
    intro l
    induction l with
    | nil => intro acc hacc; exact hacc
    | cons s tl ih =>
      intro acc hacc
      rw [List.foldl_cons]
      apply ih
      by_cases hfp : s.payload_fingerprint ≠ ""
      · rw [if_pos hfp]
        intro gp hgp
        rcases mem_apush hgp with h | h | h
        · exact hacc gp h
        · obtain ⟨vs, hvs, hmem⟩ := h
          obtain ⟨hk, hvals⟩ := hacc _ hmem
          subst hvs
          refine ⟨hk, ?_⟩
          intro x hx
          rcases List.mem_append.mp hx with h1 | h1
          · exact hvals x h1
          · rw [List.mem_singleton.mp h1]
        · subst h
          exact ⟨hfp, by intro x hx; rw [List.mem_singleton.mp hx]⟩
      · rw [if_neg hfp]
        exact hacc
  exact main ss [] (by intro gp hgp; cases hgp)

theorem pairScan_mem_rel (cl : SessionInfo → SessionInfo → Option ℚ)
    (R : SessionInfo → SessionInfo → Prop) {m : MatchT} :
    ∀ {l : List SessionInfo}, l.Pairwise R → m ∈ pairScan cl l →
      m.1 ∈ l ∧ m.2.1 ∈ l ∧ R m.1 m.2.1 := by
  intro l
  induction l with
  | nil => intro _ hm; cases hm
  | cons s1 tl ih =>
    intro hR hm
    obtain ⟨hx, htl⟩ := List.pairwise_cons.mp hR
    rw [pairScan] at hm
    rcases List.mem_append.mp hm with h | h
    · obtain ⟨s2, hs2, hcl⟩ := List.mem_filterMap.mp h
      obtain ⟨c, _, hmc⟩ := Option.map_eq_some'.mp hcl
      subst hmc
      exact ⟨List.mem_cons_self _ _, List.mem_cons_of_mem _ hs2, hx s2 hs2⟩
    · obtain ⟨h1, h2, h3⟩ := ih htl h
      exact ⟨List.mem_cons_of_mem _ h1, List.mem_cons_of_mem _ h2, h3⟩

/-- C2: the fingerprint matcher computes exactly the specified classification:
its output coincides with the matcher built from the specification's table
(reject on identical endpoints or |Δt| > 1 s; 0.90 direct proxy; 0.85
port-preserved and same VIP; 0.75 exactly one of the two; no match otherwise),
and every emitted pair has equal non-empty fingerprints with
`s1.start_time ≤ s2.start_time` — in particular a session with an empty
fingerprint never appears in any fingerprint match. -/
theorem C2_fingerprint_matcher :
    (∀ sessions, matchByPayloadFingerprint sessions = specFingerprintMatches sessions) ∧
    (∀ sessions, ∀ m ∈ matchByPayloadFingerprint sessions,
      m.1.payload_fingerprint ≠ "" ∧
      m.2.1.payload_fingerprint = m.1.payload_fingerprint ∧
      m.1.start_time ≤ m.2.1.start_time) := by
  constructor
  · intro ss
    unfold matchByPayloadFingerprint specFingerprintMatches
    refine congrArg (List.flatMap (groupByFingerprint ss)) (funext fun g => ?_)
    split
    · exact pairScan_congr _ _ classifyFP_eq _
    · rfl
  · intro ss m hm
    unfold matchByPayloadFingerprint at hm
    obtain ⟨g, hg, hmg⟩ := List.mem_flatMap.mp hm
    by_cases h2 : 2 ≤ g.2.length
    · rw [if_pos h2] at hmg
      obtain ⟨hm1, hm2, hrel⟩ :=
        pairScan_mem_rel codeClassifyFP startLe (sortByStart_pairwise g.2) hmg
      have hperm := List.mergeSort_perm g.2
        (fun a b : SessionInfo => decide (a.start_time ≤ b.start_time))
      obtain ⟨hk, hvals⟩ := groupByFingerprint_inv ss g hg
      have hfp1 : m.1.payload_fingerprint = g.1 := hvals _ (hperm.mem_iff.mp hm1)
      have hfp2 : m.2.1.payload_fingerprint = g.1 := hvals _ (hperm.mem_iff.mp hm2)
      refine ⟨?_, ?_, hrel⟩
      · rw [hfp1]; exact hk
      · rw [hfp1, hfp2]
    · rw [if_neg h2] at hmg
      cases hmg

/-- C2 witness: the properties instantiated at a concrete two-session input
whose fingerprint matcher emits the direct-proxy pair with confidence 0.90. -/
theorem C2_fingerprint_matcher_witness :
    c2A.payload_fingerprint ≠ "" ∧ c2B.payload_fingerprint = c2A.payload_fingerprint ∧
      c2A.start_time ≤ c2B.start_time := by
  have hcl : codeClassifyFP c2A c2B = some 0.90 := by
    unfold codeClassifyFP c2A c2B
    norm_num [TIME_WINDOW]
    intro h1 _
    exact absurd h1 (by decide)
  have hsort : sortByStart [c2A, c2B] = [c2A, c2B] := by
    unfold sortByStart
    apply List.mergeSort_of_sorted
    constructor
    · intro b hb
      rw [List.mem_singleton.mp hb]
      decide
    · constructor
      · intro b hb; cases hb
      · constructor
  have hout : matchByPayloadFingerprint [c2A, c2B] = [(c2A, c2B, 0.90)] := by
    have hgrp : groupByFingerprint [c2A, c2B] = [("fp", [c2A, c2B])] := by rfl
    unfold matchByPayloadFingerprint
    rw [hgrp]
    simp only [List.flatMap_cons, List.flatMap_nil, List.append_nil]
    rw [if_pos (by decide), hsort]
    simp [pairScan, List.filterMap_cons, hcl]
  exact C2_fingerprint_matcher.2 [c2A, c2B] (c2A, c2B, 0.90)
    (by rw [hout]; exact List.mem_singleton.mpr rfl)

/-! ### C3 -/

theorem takeRun_chain (m : String → SessionInfo) :
    ∀ (tl : List String) (k : String),
      List.Chain' (fun a b => isValidHopPair (m a) (m b) = true) (k :: (takeRun m k tl).1) := by
  intro tl
  induction tl with
  | nil => intro k; exact List.chain'_singleton k
  | cons x tl' ih =>
    intro k
    rw [takeRun]
    by_cases hv : isValidHopPair (m k) (m x) = true
    · rw [if_pos hv]
      exact List.chain'_cons.mpr ⟨hv, ih x⟩
    · rw [if_neg hv]
      exact List.chain'_singleton k

theorem specGreedySplit_props (m : String → SessionInfo) :
    ∀ l, ∀ c ∈ specGreedySplit m l, 2 ≤ c.length ∧
      List.Chain' (fun a b => isValidHopPair (m a) (m b) = true) c := by
  have main : ∀ (n : Nat) (l : List String), l.length ≤ n → ∀ c ∈ specGreedySplit m l,
      2 ≤ c.length ∧ List.Chain' (fun a b => isValidHopPair (m a) (m b) = true) c := by
    intro n
    induction n with
    | zero =>
      intro l hl c hc
      have : l = [] := List.length_eq_zero.mp (Nat.le_zero.mp hl)
      subst this
      rw [specGreedySplit] at hc
      cases hc
    | succ n ih =>
      intro l hl c hc
      match l with
      | [] =>
        rw [specGreedySplit] at hc
        cases hc
      | k :: tl =>
        rw [specGreedySplit] at hc
        rcases List.mem_append.mp hc with h | h
        · by_cases hlen : 2 ≤ (k :: (takeRun m k tl).1).length
          · rw [if_pos hlen] at h
            rw [List.mem_singleton.mp h]
            exact ⟨hlen, takeRun_chain m tl k⟩
          · rw [if_neg hlen] at h
            cases h
        · have hlt : (takeRun m k tl).2.length ≤ n := by
            have := takeRun_snd_length m k tl
            simp only [List.length_cons] at hl
            omega
          exact ih (takeRun m k tl).2 hlt c h
  intro l
  exact main l.length l (le_refl _)

theorem splitLoop_spec (m : String → SessionInfo) :
    ∀ (rest curRev : List String) (lastK : String) (acc : List (List String)),
      curRev.head? = some lastK →
      splitLoop m rest curRev lastK acc =
        acc ++ ((if 2 ≤ (curRev.reverse ++ (takeRun m lastK rest).1).length
                 then [curRev.reverse ++ (takeRun m lastK rest).1] else []) ++
                specGreedySplit m (takeRun m lastK rest).2) := by
  intro rest
  induction rest with
  | nil =>
    intro curRev lastK acc _
    rw [splitLoop, takeRun]
    simp only [List.append_nil, List.length_append, List.length_nil, List.length_reverse,
      Nat.add_zero, specGreedySplit]
    split <;> simp
  | cons k tl ih =>
    intro curRev lastK acc hhead
    rw [splitLoop, takeRun]
    by_cases hv : isValidHopPair (m lastK) (m k) = true
    · rw [if_pos hv, if_pos hv]
      rw [ih (k :: curRev) k acc rfl]
      have hrw : (k :: curRev).reverse ++ (takeRun m k tl).1 =
          curRev.reverse ++ (k :: (takeRun m k tl).1) := by
        rw [List.reverse_cons, List.append_assoc]
        rfl
      rw [hrw]
    · rw [if_neg hv, if_neg hv]
      have hspec : ∀ acc' : List (List String), splitLoop m tl [k] k acc' =
          acc' ++ specGreedySplit m (k :: tl) := by
        intro acc'
        rw [ih [k] k acc' rfl, specGreedySplit]
        rfl
      dsimp only
      by_cases hlen : 2 ≤ curRev.length
      · rw [if_pos hlen, hspec,
          if_pos (by simpa using hlen)]
        simp [List.append_assoc]
      · rw [if_neg hlen, hspec,
          if_neg (by simpa using hlen)]
        simp

theorem splitInvalidChains_eq_greedy (m : String → SessionInfo) (keys : List String)
    (h2 : 2 ≤ keys.length) :
    splitInvalidChains keys m = specGreedySplit m (sortKeysByStart m keys) := by
  unfold splitInvalidChains
  rw [if_neg (by omega)]
  have hlen : (sortKeysByStart m keys).length = keys.length := by
    unfold sortKeysByStart
    exact (List.mergeSort_perm keys _).length_eq
  rcases hs : sortKeysByStart m keys with _ | ⟨k0, rest⟩
  · rw [hs] at hlen
    simp at hlen
    omega
  · dsimp only
    rw [splitLoop_spec m rest [k0] k0 [] rfl, specGreedySplit]
    rfl

/-- C3: chain splitting sorts the component by `start_time` and splits
greedily with the valid-hop predicate (first conjunct: the code's walking loop
equals the greedy maximal-run split); every produced chain has length ≥ 2 and
consecutive members always satisfy the valid-hop predicate (second conjunct);
the predicate is `direct ∨ (port-preserved ∧ same-VIP) ∨ port-preserved`,
which simplifies to `direct ∨ port-preserved` (third conjunct), so same-VIP
geometry alone never links two consecutive chain members (fourth conjunct). -/
theorem C3_chain_splitting (m : String → SessionInfo) (keys : List String)
    (h2 : 2 ≤ keys.length) :
    splitInvalidChains keys m = specGreedySplit m (sortKeysByStart m keys) ∧
    (∀ c ∈ splitInvalidChains keys m, 2 ≤ c.length ∧
      List.Chain' (fun a b => isValidHopPair (m a) (m b) = true) c) ∧
    (∀ s1 s2 : SessionInfo, isValidHopPair s1 s2 = true ↔
      (s1.dst_ip = s2.src_ip ∨ (s1.src_port = s2.src_port ∧ s1.src_ip ≠ s2.src_ip))) ∧
    (∀ s1 s2 : SessionInfo, s1.dst_ip = s2.dst_ip → s1.src_ip ≠ s2.src_ip →
      s1.dst_ip ≠ s2.src_ip → s1.src_port ≠ s2.src_port → isValidHopPair s1 s2 = false) := by
  have hiff : ∀ s1 s2 : SessionInfo, isValidHopPair s1 s2 = true ↔
      (s1.dst_ip = s2.src_ip ∨ (s1.src_port = s2.src_port ∧ s1.src_ip ≠ s2.src_ip)) := by
    intro s1 s2
    unfold isValidHopPair
    simp only [decide_eq_true_eq]
    tauto
  refine ⟨splitInvalidChains_eq_greedy m keys h2, ?_, hiff, ?_⟩
  · intro c hc
    rw [splitInvalidChains_eq_greedy m keys h2] at hc
    exact specGreedySplit_props m _ c hc
  · intro s1 s2 hvip hsrc hdir hport
    rw [← Bool.not_eq_true]
    intro hcon
    rcases (hiff s1 s2).mp hcon with h | h
    · exact hdir h
    · exact hport h.1

/-- A constant session map used in the C3 witness. -/
def c3m : String → SessionInfo := fun _ => default

/-- C3 witness: the theorem instantiated at a concrete two-key component. -/
theorem C3_chain_splitting_witness :
    splitInvalidChains ["a", "b"] c3m = specGreedySplit c3m (sortKeysByStart c3m ["a", "b"]) ∧
    (∀ c ∈ splitInvalidChains ["a", "b"] c3m, 2 ≤ c.length ∧
      List.Chain' (fun a b => isValidHopPair (c3m a) (c3m b) = true) c) ∧
    (∀ s1 s2 : SessionInfo, isValidHopPair s1 s2 = true ↔
      (s1.dst_ip = s2.src_ip ∨ (s1.src_port = s2.src_port ∧ s1.src_ip ≠ s2.src_ip))) ∧
    (∀ s1 s2 : SessionInfo, s1.dst_ip = s2.dst_ip → s1.src_ip ≠ s2.src_ip →
      s1.dst_ip ≠ s2.src_ip → s1.src_port ≠ s2.src_port → isValidHopPair s1 s2 = false) :=
  C3_chain_splitting c3m ["a", "b"] (by decide)

/-! ### C4 -/

theorem alookup_none {κ α : Type} [DecidableEq κ] {k : κ} :
    ∀ {l : List (κ × α)}, alookup k l = none → ∀ e ∈ l, e.1 ≠ k := by
  intro l
  induction l with
  | nil => intro _ e he; cases he
  | cons hd tl ih =>
    intro h e he
    rw [alookup] at h
    by_cases hk : hd.1 = k
    · rw [if_pos hk] at h; cases h
    · rw [if_neg hk] at h
      rcases List.mem_cons.mp he with h1 | h1
      · rw [h1]; exact hk
      · exact ih h e h1

theorem mem_aset_of_ne {κ α : Type} [DecidableEq κ] {k : κ} {v : α} {e : κ × α} :
    ∀ {l : List (κ × α)}, e ∈ l → e.1 ≠ k → e ∈ aset k v l := by
  intro l
  induction l with
  | nil => intro he; cases he
  | cons hd tl ih =>
    intro he hne
    rw [aset]
    by_cases hk : hd.1 = k
    · rw [if_pos hk]
      rcases List.mem_cons.mp he with h1 | h1
      · exact absurd (h1 ▸ hk) hne
      · exact List.mem_cons_of_mem _ h1
    · rw [if_neg hk]
      rcases List.mem_cons.mp he with h1 | h1
      · rw [h1]; exact List.mem_cons_self _ _
      · exact List.mem_cons_of_mem _ (ih h1 hne)

theorem mem_aset_self {κ α : Type} [DecidableEq κ] (k : κ) (v : α) :
    ∀ (l : List (κ × α)), (k, v) ∈ aset k v l := by
  intro l
  induction l with
  | nil => exact List.mem_singleton.mpr rfl
  | cons hd tl ih =>
    rw [aset]
    by_cases hk : hd.1 = k
    · rw [if_pos hk]; exact List.mem_cons_self _ _
    · rw [if_neg hk]; exact List.mem_cons_of_mem _ ih

theorem aset_keys {κ α : Type} [DecidableEq κ] {k : κ} {v : α} :
    ∀ {l : List (κ × α)}, (alookup k l).isSome →
      (aset k v l).map Prod.fst = l.map Prod.fst := by
  intro l
  induction l with
  | nil => intro h; simp [alookup] at h
  | cons hd tl ih =>
    intro h
    rw [alookup] at h
    rw [aset]
    by_cases hk : hd.1 = k
    · rw [if_pos hk]
      simp [hk]
    · rw [if_neg hk]
      rw [if_neg hk] at h
      simp [ih h]

theorem mem_aset_char {κ α : Type} [DecidableEq κ] {k : κ} {v : α} {e : κ × α} :
    ∀ {l : List (κ × α)}, (l.map Prod.fst).Nodup → e ∈ aset k v l →
      e = (k, v) ∨ (e ∈ l ∧ e.1 ≠ k) := by
  intro l
  induction l with
  | nil =>
    intro _ h
    left
    simpa [aset] using h
  | cons hd tl ih =>
    intro hnd h
    have hnd' : (hd.1 :: tl.map Prod.fst).Nodup := by simpa using hnd
    obtain ⟨hhd, htl⟩ := List.nodup_cons.mp hnd'
    rw [aset] at h
    by_cases hk : hd.1 = k
    · rw [if_pos hk] at h
      rcases List.mem_cons.mp h with h1 | h1
      · left; exact h1
      · right
        refine ⟨List.mem_cons_of_mem _ h1, ?_⟩
        intro hek
        apply hhd
        rw [hk, ← hek]
        exact List.mem_map_of_mem Prod.fst h1
    · rw [if_neg hk] at h
      rcases List.mem_cons.mp h with h1 | h1
      · right; exact ⟨by rw [h1]; exact List.mem_cons_self _ _, by rw [h1]; exact hk⟩
      · rcases ih htl h1 with h2 | h2
        · left; exact h2
        · right; exact ⟨List.mem_cons_of_mem _ h2.1, h2.2⟩

theorem keys_nodup_inj {κ α : Type} [DecidableEq κ] :
    ∀ {l : List (κ × α)}, (l.map Prod.fst).Nodup → ∀ {a b : κ × α},
      a ∈ l → b ∈ l → a.1 = b.1 → a = b := by
  intro l
  induction l with
  | nil => intro _ a b ha; cases ha
  | cons hd tl ih =>
    intro hnd a b ha hb hk
    have hnd' : (hd.1 :: tl.map Prod.fst).Nodup := by simpa using hnd
    obtain ⟨hhd, htl⟩ := List.nodup_cons.mp hnd'
    rcases List.mem_cons.mp ha with h1 | h1 <;> rcases List.mem_cons.mp hb with h2 | h2
    · rw [h1, h2]
    · exfalso
      apply hhd
      rw [h1] at hk
      rw [hk]
      exact List.mem_map_of_mem Prod.fst h2
    · exfalso
      apply hhd
      rw [h2] at hk
      rw [← hk]
      exact List.mem_map_of_mem Prod.fst h1
    · exact ih htl h1 h2 hk

/-- Invariant of the `best_matches` loop: distinct keys, every entry keyed by
its own edge's key with the edge drawn from the processed prefix, and every
processed candidate dominated by the entry stored under its key. -/
def DInv {κ : Type} [DecidableEq κ] (key : Match4 → κ) (best : List (κ × Match4))
    (processed : List Match4) : Prop :=
  (best.map Prod.fst).Nodup ∧
  (∀ ent ∈ best, ent.1 = key ent.2 ∧ ent.2 ∈ processed) ∧
  (∀ c ∈ processed, ∃ ent ∈ best, ent.1 = key c ∧ c.2.2.1 ≤ ent.2.2.2.1)

theorem dedupBest_fold {κ : Type} [DecidableEq κ] (key : Match4 → κ) :
    ∀ (l : List Match4) (best : List (κ × Match4)) (processed : List Match4),
      DInv key best processed →
      DInv key (l.foldl
        (fun best m => match alookup (key m) best with
          | none => best ++ [(key m, m)]
          | some old => if m.2.2.1 > old.2.2.1 then aset (key m) m best else best) best)
        (processed ++ l) := by
  intro l
  induction l with
  | nil => intro best processed h; simpa using h
  | cons m tl ih =>
    intro best processed h
    obtain ⟨hnd, hent, hmax⟩ := h
    rw [List.foldl_cons]
    have hstep : DInv key
        (match alookup (key m) best with
          | none => best ++ [(key m, m)]
          | some old => if m.2.2.1 > old.2.2.1 then aset (key m) m best else best)
        (processed ++ [m]) := by
      rcases hlk : alookup (key m) best with _ | old
      · refine ⟨?_, ?_, ?_⟩
        · simp only [List.map_append, List.map_cons, List.map_nil]
          rw [List.nodup_append]
          refine ⟨hnd, List.nodup_singleton _, ?_⟩
          intro x hx hx2
          rw [List.mem_singleton.mp hx2] at hx
          obtain ⟨e, he, hke⟩ := List.mem_map.mp hx
          exact alookup_none hlk e he hke
        · intro ent hml
          rcases List.mem_append.mp hml with h1 | h1
          · obtain ⟨hk1, hk2⟩ := hent ent h1
            exact ⟨hk1, List.mem_append_left _ hk2⟩
          · rw [List.mem_singleton.mp h1]
            exact ⟨rfl, List.mem_append_right _ (List.mem_singleton.mpr rfl)⟩
        · intro c hc
          rcases List.mem_append.mp hc with h1 | h1
          · obtain ⟨ent, hm1, hm2, hm3⟩ := hmax c h1
            exact ⟨ent, List.mem_append_left _ hm1, hm2, hm3⟩
          · rw [List.mem_singleton.mp h1]
            exact ⟨(key m, m), List.mem_append_right _ (List.mem_singleton.mpr rfl),
              rfl, le_refl _⟩
      · dsimp only
        have hold : (key m, old) ∈ best := alookup_mem hlk
        by_cases hcmp : m.2.2.1 > old.2.2.1
        · rw [if_pos hcmp]
          refine ⟨?_, ?_, ?_⟩
          · rw [aset_keys (by rw [hlk]; rfl)]
            exact hnd
          · intro ent hml
            rcases mem_aset_char hnd hml with h1 | h1
            · rw [h1]
              exact ⟨rfl, List.mem_append_right _ (List.mem_singleton.mpr rfl)⟩
            · obtain ⟨hk1, hk2⟩ := hent ent h1.1
              exact ⟨hk1, List.mem_append_left _ hk2⟩
          · intro c hc
            rcases List.mem_append.mp hc with h1 | h1
            · obtain ⟨ent, hm1, hm2, hm3⟩ := hmax c h1
              by_cases hkey : ent.1 = key m
              · have : ent = (key m, old) := keys_nodup_inj hnd hm1 hold hkey
                refine ⟨(key m, m), mem_aset_self _ _ _, by rw [← hkey, hm2], ?_⟩
                have : c.2.2.1 ≤ old.2.2.1 := by
                  rw [this] at hm3
                  exact hm3
                exact le_trans this (le_of_lt hcmp)
              · exact ⟨ent, mem_aset_of_ne hm1 hkey, hm2, hm3⟩
            · rw [List.mem_singleton.mp h1]
              exact ⟨(key m, m), mem_aset_self _ _ _, rfl, le_refl _⟩
        · rw [if_neg hcmp]
          refine ⟨hnd, ?_, ?_⟩
          · intro ent hml
            obtain ⟨hk1, hk2⟩ := hent ent hml
            exact ⟨hk1, List.mem_append_left _ hk2⟩
          · intro c hc
            rcases List.mem_append.mp hc with h1 | h1
            · obtain ⟨ent, hm1, hm2, hm3⟩ := hmax c h1
              exact ⟨ent, hm1, hm2, hm3⟩
            · rw [List.mem_singleton.mp h1]
              exact ⟨(key m, old), hold, rfl, not_lt.mp hcmp⟩
    have := ih _ (processed ++ [m]) hstep
    simpa using this

theorem dedupBest_props {κ : Type} [DecidableEq κ] (key : Match4 → κ) (ms : List Match4) :
    DInv key (dedupBest key ms) ms := by
  have h := dedupBest_fold key ms [] []
    ⟨List.nodup_nil, fun ent h => absurd h (List.not_mem_nil ent),
     fun c h => absurd h (List.not_mem_nil c)⟩
  simpa [dedupBest] using h

theorem lexLt_append_left : ∀ (p a b : List Char), lexLt (p ++ a) (p ++ b) = lexLt a b := by
  intro p
  induction p with
  | nil => intro a b; rfl
  | cons c tl ih =>
    intro a b
    rw [List.cons_append, List.cons_append]
    show (if c < c then true else if c < c then false else lexLt (tl ++ a) (tl ++ b)) = _
    simp [lt_irrefl, ih]

theorem strLt_append_left (p a b : String) : strLt (p ++ a) (p ++ b) = strLt a b := by
  unfold strLt
  rw [String.data_append p a, String.data_append p b, lexLt_append_left]

theorem pairSorted_append_left (p a b : String) :
    pairSorted (p ++ a) (p ++ b) = (p ++ (pairSorted a b).1, p ++ (pairSorted a b).2) := by
  unfold pairSorted
  rw [strLt_append_left]
  split <;> rfl

theorem str_append_left_cancel {p a b : String} (h : p ++ a = p ++ b) : a = b := by
  have hd : (p ++ a).data = (p ++ b).data := by rw [h]
  rw [String.data_append, String.data_append] at hd
  have hab := List.append_cancel_left hd
  cases a
  cases b
  exact congrArg String.mk hab

theorem fsPairKey_uniform {m : Match4} {fs : String} (h1 : m.1.file_source = fs)
    (h2 : m.2.1.file_source = fs) :
    fsPairKey m = ((fs ++ ":") ++ (sidPairKey m).1, (fs ++ ":") ++ (sidPairKey m).2) := by
  unfold fsPairKey sidPairKey fsKey
  rw [h1, h2]
  exact pairSorted_append_left _ _ _

theorem sidPairKey_of_fsPairKey {a b : Match4} {fs : String}
    (ha1 : a.1.file_source = fs) (ha2 : a.2.1.file_source = fs)
    (hb1 : b.1.file_source = fs) (hb2 : b.2.1.file_source = fs)
    (h : fsPairKey a = fsPairKey b) : sidPairKey a = sidPairKey b := by
  rw [fsPairKey_uniform ha1 ha2, fsPairKey_uniform hb1 hb2] at h
  obtain ⟨e1, e2⟩ := Prod.mk.injEq .. ▸ h
  exact Prod.ext (str_append_left_cancel e1) (str_append_left_cancel e2)

/-- Core property of the `best_matches` dictionary for any edge key: retained
edges come from the candidates, carry pairwise distinct keys, and dominate
every candidate with the same key. -/
theorem dedup_generic {κ : Type} [DecidableEq κ] (key : Match4 → κ) (ms : List Match4) :
    (((dedupBest key ms).map (·.2)).map key).Nodup ∧
    ∀ e ∈ (dedupBest key ms).map (·.2), e ∈ ms ∧
      ∀ c ∈ ms, key c = key e → c.2.2.1 ≤ e.2.2.1 := by
  obtain ⟨hnd, hent, hmax⟩ := dedupBest_props key ms
  constructor
  · have heq : ((dedupBest key ms).map (·.2)).map key = (dedupBest key ms).map Prod.fst := by
      rw [List.map_map]
      apply List.map_congr_left
      intro ent hl
      exact ((hent ent hl).1).symm
    rw [heq]
    exact hnd
  · intro e he
    obtain ⟨ent, hl, hev⟩ := List.mem_map.mp he
    refine ⟨hev ▸ (hent ent hl).2, ?_⟩
    intro c hc hkey
    obtain ⟨ent', hl', hk', hconf⟩ := hmax c hc
    have hkk : ent'.1 = ent.1 := by
      rw [hk', hkey, ← hev, ← (hent ent hl).1]
    have : ent' = ent := keys_nodup_inj hnd hl' hl hkk
    rw [this] at hconf
    rw [← hev]
    exact hconf

/-- C4: in both trace entry points, after deduplication the edge set contains
at most one edge per unordered `file_source:session_id` pair (keys sorted
lexicographically), and each retained edge is one of the candidates with
maximal confidence for that key.  `trace_multi_file` keys edges by the
prefixed pair directly; `trace_single_file` keys by the bare `session_id`
pair, which under its invariant — every session of one trace carries the same
`file_source` — induces the same partition. -/
theorem C4_dedup_max_per_key :
    (∀ edges : List Match4,
      ((dedupMulti edges).map fsPairKey).Nodup ∧
      ∀ e ∈ dedupMulti edges, e ∈ edges ∧
        ∀ c ∈ edges, fsPairKey c = fsPairKey e → c.2.2.1 ≤ e.2.2.1) ∧
    (∀ (edges : List Match4) (fs : String),
      (∀ e ∈ edges, e.1.file_source = fs ∧ e.2.1.file_source = fs) →
      ((dedupSingle edges).map fsPairKey).Nodup ∧
      ∀ e ∈ dedupSingle edges, e ∈ edges ∧
        ∀ c ∈ edges, fsPairKey c = fsPairKey e → c.2.2.1 ≤ e.2.2.1) := by
  constructor
  · intro edges
    exact dedup_generic fsPairKey edges
  · intro edges fs hfs
    obtain ⟨hnd, hprop⟩ := dedup_generic sidPairKey edges
    have hsub : ∀ e ∈ dedupSingle edges, e ∈ edges := fun e he => (hprop e he).1
    constructor
    · have heq : (dedupSingle edges).map fsPairKey =
          ((dedupSingle edges).map sidPairKey).map
            (fun q => ((fs ++ ":") ++ q.1, (fs ++ ":") ++ q.2)) := by
        rw [List.map_map]
        apply List.map_congr_left
        intro e he
        obtain ⟨h1, h2⟩ := hfs e (hsub e he)
        exact fsPairKey_uniform h1 h2
      rw [heq]
      apply List.Nodup.map ?_ hnd
      intro q1 q2 hq
      obtain ⟨e1, e2⟩ := Prod.mk.injEq .. ▸ hq
      exact Prod.ext (str_append_left_cancel e1) (str_append_left_cancel e2)
    · intro e he
      refine ⟨hsub e he, ?_⟩
      intro c hc hkey
      obtain ⟨hc1, hc2⟩ := hfs c hc
      obtain ⟨he1, he2⟩ := hfs e (hsub e he)
      exact (hprop e he).2 c hc (sidPairKey_of_fsPairKey hc1 hc2 he1 he2 hkey)

/-- Two candidate edges on the same unordered pair with different confidences. -/
def c4edges : List Match4 :=
  [(c2A, c2B, 0.75, "payload_fingerprint"), (c2A, c2B, 0.90, "http_header")]

/-- C4 witness: both conjuncts applied to a concrete two-candidate edge list
(uniform empty `file_source`). -/
theorem C4_dedup_max_per_key_witness :
    (((dedupMulti c4edges).map fsPairKey).Nodup ∧
      ∀ e ∈ dedupMulti c4edges, e ∈ c4edges ∧
        ∀ c ∈ c4edges, fsPairKey c = fsPairKey e → c.2.2.1 ≤ e.2.2.1) ∧
    (((dedupSingle c4edges).map fsPairKey).Nodup ∧
      ∀ e ∈ dedupSingle c4edges, e ∈ c4edges ∧
        ∀ c ∈ c4edges, fsPairKey c = fsPairKey e → c.2.2.1 ≤ e.2.2.1) :=
  ⟨C4_dedup_max_per_key.1 c4edges,
   C4_dedup_max_per_key.2 c4edges "" (by decide)⟩

/-! ### C7 -/

/-- C7 counterexample: on an input yielding zero sessions, the stats
dictionary of `trace_single_file` carries only `total_sessions`,
`matched_chains` and `methods_used` — the claimed `matched_sessions` key is
absent. -/
theorem C7_counterexample :
    (traceSingleFile (fun _ => "h") (fun _ _ => none) (fun _ _ => []) "f.pcap" [] []).stats.map
        Prod.fst = ["total_sessions", "matched_chains", "methods_used"] ∧
    "matched_sessions" ∉
      (traceSingleFile (fun _ => "h") (fun _ _ => none) (fun _ _ => []) "f.pcap" [] []).stats.map
        Prod.fst := by
  constructor
  · rfl
  · decide

/-- C7 amended: the result always has the three top-level components `chains`,
`unmatched_sessions` and `stats` (structurally, as fields of `TraceResult`);
when extraction yields no sessions the result is exactly the empty-result
dictionary — empty chains, empty unmatched list, and stats
`{total_sessions: 0, matched_chains: 0, methods_used: {}}` with NO
`matched_sessions` key; when at least one session is extracted the stats keys
are exactly `total_sessions`, `matched_chains`, `matched_sessions`,
`methods_used`. -/
theorem C7_trace_result_shape (md5f : List Nat → String)
    (hdrOracle : String → String → Option String) (hopRows : String → String → List HopRow)
    (filepath : String) (rows : List Row) (httpRows : List HttpRow) :
    (extractSessions md5f hdrOracle (basenameOf filepath) rows httpRows = [] →
      traceSingleFile md5f hdrOracle hopRows filepath rows httpRows =
        { chains := [], unmatched_sessions := [],
          stats := [("total_sessions", .num 0), ("matched_chains", .num 0),
                    ("methods_used", .methods [])] }) ∧
    (extractSessions md5f hdrOracle (basenameOf filepath) rows httpRows ≠ [] →
      (traceSingleFile md5f hdrOracle hopRows filepath rows httpRows).stats.map Prod.fst =
        ["total_sessions", "matched_chains", "matched_sessions", "methods_used"]) := by
  constructor
  · intro h
    unfold traceSingleFile
    rw [if_pos h]
  · intro h
    unfold traceSingleFile
    rw [if_neg h]
    rfl

/-- C7 witness: both cases at concrete inputs — the empty capture and a
one-row capture. -/
theorem C7_trace_result_shape_witness :
    traceSingleFile (fun _ => "h") (fun _ _ => none) (fun _ _ => []) "f.pcap" [] [] =
      { chains := [], unmatched_sessions := [],
        stats := [("total_sessions", .num 0), ("matched_chains", .num 0),
                  ("methods_used", .methods [])] } ∧
    (traceSingleFile (fun _ => "h") (fun _ _ => none) (fun _ _ => []) "f.pcap" [c1wRow]
        []).stats.map Prod.fst =
      ["total_sessions", "matched_chains", "matched_sessions", "methods_used"] :=
  ⟨(C7_trace_result_shape (fun _ => "h") (fun _ _ => none) (fun _ _ => []) "f.pcap" [] []).1
      (by rfl),
   (C7_trace_result_shape (fun _ => "h") (fun _ _ => none) (fun _ _ => []) "f.pcap" [c1wRow]
      []).2 (by decide)⟩

end NetLens
